import Mathlib

/-!
Verification development for the photon-storage/fastssz code generator
(`sszgen/main.go`).  The Go source is shallowly embedded: the `Value` IR
node becomes an inductive tree, the AST-walking builder becomes pure
recursive functions parameterised by the registry-resolution callback, and
the pointer heap used by `Value.copy` is modelled explicitly as a store of
cells addressed by natural numbers.  Machine integers of the source
(`uint64` sizes and lengths) are modelled as `Nat`; fallible Go paths
(`error` returns) become `Except String`, and panics become `Option`
failure (`none`).
-/

namespace Fastssz

/-- SSZ type tag, from the `Type` constants of main.go (lines 229-250).
`TypeUndefined` is the sentinel zero value. -/
inductive Ty where
  | undefined
  | uint
  | bool
  | bytes
  | bitlist
  | vector
  | list
  | container
  | reference
deriving DecidableEq, Repr, BEq

/-- The IR node of main.go (struct `Value`, lines 176-200), as a tree.
Constructor argument order follows the Go field order:
name, obj, s, t, o, e, c, m, ref, noPtr, fixed.  The Go struct holds
`o []*Value` and `e *Value` pointers; the tree form is the value they
denote (the pointer heap itself is modelled separately below for the
copy/aliasing claims). -/
inductive Value where
  | mk : String → String → Nat → Ty → List Value → Option Value →
      Bool → Nat → String → Bool → Bool → Value
deriving Repr

def Value.name : Value → String
  | .mk n _ _ _ _ _ _ _ _ _ _ => n

def Value.obj : Value → String
  | .mk _ o _ _ _ _ _ _ _ _ _ => o

def Value.s : Value → Nat
  | .mk _ _ s _ _ _ _ _ _ _ _ => s

def Value.t : Value → Ty
  | .mk _ _ _ t _ _ _ _ _ _ _ => t

def Value.o : Value → List Value
  | .mk _ _ _ _ o _ _ _ _ _ _ => o

def Value.e : Value → Option Value
  | .mk _ _ _ _ _ e _ _ _ _ _ => e

def Value.c : Value → Bool
  | .mk _ _ _ _ _ _ c _ _ _ _ => c

def Value.m : Value → Nat
  | .mk _ _ _ _ _ _ _ m _ _ _ => m

def Value.ref : Value → String
  | .mk _ _ _ _ _ _ _ _ r _ _ => r

def Value.noPtr : Value → Bool
  | .mk _ _ _ _ _ _ _ _ _ np _ => np

def Value.fixed : Value → Bool
  | .mk _ _ _ _ _ _ _ _ _ _ fx => fx

/-- Assignment `v.name = n` of the Go code. -/
def Value.withName : Value → String → Value
  | .mk _ ob s t o e c m r np fx, n => .mk n ob s t o e c m r np fx

/-- Assignment `v.obj = n` of the Go code. -/
def Value.withObj : Value → String → Value
  | .mk n _ s t o e c m r np fx, ob => .mk n ob s t o e c m r np fx

/-- Assignment `v.ref = r` of the Go code. -/
def Value.withRef : Value → String → Value
  | .mk n ob s t o e c m _ np fx, r => .mk n ob s t o e c m r np fx

/-- Assignment `v.noPtr = b` of the Go code. -/
def Value.withNoPtr : Value → Bool → Value
  | .mk n ob s t o e c m r _ fx, np => .mk n ob s t o e c m r np fx

/-- Literal `&Value{t: t, s: s}` with all other fields zero. -/
def mkBasic (t : Ty) (s : Nat) : Value :=
  .mk "" "" s t [] none false 0 "" false false

mutual

/-- `Value.isFixed` of main.go (lines 1120-1163).  The Go method can panic:
on a `TypeUndefined` node it reaches the `default` case and panics, and on
a `TypeVector` node with a nil element it dereferences the nil pointer.
Both failure modes are modelled as `none`; `some b` is a normal return. -/
def Value.isFixed : Value → Option Bool
  | .mk _ _ s t o e _ _ _ _ fx =>
    match t with
    | .uint => some true
    | .bool => some true
    | .list => some false
    | .bitlist => some false
    | .vector => isFixedElem e
    | .bytes => some fx
    | .container => isFixedFields o
    | .reference => some (s != 0)
    | .undefined => none

/-- Dereference of `v.e` followed by `v.e.isFixed()`; a nil element is a
panic (`none`). -/
def isFixedElem : Option Value → Option Bool
  | none => none
  | some v => v.isFixed

/-- The container loop of `Value.isFixed`: stop with `false` at the first
non-fixed field, propagate a panic, otherwise `true`. -/
def isFixedFields : List Value → Option Bool
  | [] => some true
  | f :: rest =>
    match f.isFixed with
    | none => none
    | some Bool.false => some false
    | some Bool.true => isFixedFields rest

end

/-- `isBasicType` of main.go (lines 447-449). -/
def isBasicType (v : Value) : Bool :=
  v.t == Ty.uint || v.t == Ty.bool || v.t == Ty.bytes

mutual

/-- Well-formedness of an IR node: the node and every sub-node reachable
through `o` or `e` has a defined (non-sentinel) kind, and every vector
carries a non-nil element. -/
def wfValue : Value → Bool
  | .mk _ _ _ t o e _ _ _ _ _ =>
    (t != Ty.undefined) && (t != Ty.vector || e.isSome) && wfElem e && wfFields o

def wfElem : Option Value → Bool
  | none => true
  | some v => wfValue v

def wfFields : List Value → Bool
  | [] => true
  | f :: rest => wfValue f && wfFields rest

end

mutual

/-- The fixed-size table of the specification, written from its words:
uint and bool are always fixed; list and bitlist never; bytes iff the
fixed-width flag; a vector iff its element is fixed; a container iff every
field is fixed; a reference iff a bound width is present (nonzero). -/
def specFixed : Value → Bool
  | .mk _ _ s t o e _ _ _ _ fx =>
    match t with
    | .uint => true
    | .bool => true
    | .list => false
    | .bitlist => false
    | .vector => specFixedElem e
    | .bytes => fx
    | .container => specFixedFields o
    | .reference => s != 0
    | .undefined => false

def specFixedElem : Option Value → Bool
  | none => false
  | some v => specFixed v

def specFixedFields : List Value → Bool
  | [] => true
  | f :: rest => specFixed f && specFixedFields rest

end

/-- Modelled from the spec: one per-field dimension annotation, the
`SSZDimension` produced by `extractSSZDimensions`, which is code of this
repository outside `src/`.  Per the spec, each dimension declares whether
it is fixed (`Vector`, with a length), bounded-variable (`List`, with a
max length), or a bitlist; the builder consults it through the methods
`IsVector`, `IsList`, `IsBitlist`, `VectorLen`, `ListLen`. -/
structure Dim where
  vectorLen : Option Nat
  listLen : Option Nat
  isBitlistDim : Bool
deriving DecidableEq, Repr

def Dim.isVector (d : Dim) : Bool := d.vectorLen.isSome

def Dim.isList (d : Dim) : Bool := d.listLen.isSome

def Dim.isBitlist (d : Dim) : Bool := d.isBitlistDim

def Dim.vLen (d : Dim) : Nat := d.vectorLen.getD 0

def Dim.lLen (d : Dim) : Nat := d.listLen.getD 0

/-- Modelled from the spec: the struct-tag data consulted by the builder,
taken as already extracted.  `ssz` is `getTags(tags, "ssz")`, `sszMax` is
`getTagsInt(tags, "ssz-max")`, `sszSize` is `getTagsInt(tags, "ssz-size")`
(the string-splitting helpers at main.go lines 1080-1118 are abstracted
into their results), and `dims` is the outcome of `extractSSZDimensions`,
which is code of this repository outside `src/`. -/
structure TagData where
  ssz : Option String
  sszMax : Option Nat
  sszSize : Option Nat
  dims : Except String (List Dim)

/-- The length expression of a Go `ArrayType`: `none` models a slice
(nil `Len`), `num n` a `BasicLit` whose text parses as `n` via
`strconv.ParseUint`, `bad` a `BasicLit` that fails to parse, and `notLit`
a length expression that is not a `BasicLit` at all. -/
inductive LenLit where
  | num (n : Nat)
  | bad
  | notLit
deriving DecidableEq, Repr

/-- The fragment of `go/ast` expressions consumed by `parseASTFieldType`:
star expressions, array/slice types, identifiers, and selector
expressions with an identifier base (the source asserts `X.(*ast.Ident)`
unconditionally).  `other` stands for any other expression; the source
panics on it, modelled as an error result. -/
inductive GoExpr where
  | star (x : GoExpr)
  | arr (len : Option LenLit) (elt : GoExpr)
  | ident (s : String)
  | sel (x : String) (s : String)
  | other
deriving DecidableEq, Repr

/-- The mutable header of the `collection` node being filled by the
dimension loop of `parseASTFieldType` (main.go lines 929-1010); the other
fields of `&Value{}` stay at their zero values. -/
structure VB where
  s : Nat := 0
  t : Ty := Ty.undefined
  e : Option Value := none
  c : Bool := false
  m : Nat := 0
  fixed : Bool := false

def VB.toValue (vb : VB) : Value :=
  .mk "" "" vb.s vb.t [] vb.e vb.c vb.m "" false vb.fixed

/-- Go `strings.HasPrefix` on the character lists (`String.startsWith`
is externally implemented in Lean and does not reduce). -/
def goHasPre (s pre : String) : Bool := pre.data.isPrefixOf s.data

/-- The `StarExpr` branch of `parseASTFieldType` (main.go lines
901-921): a pointer to a local type resolves through the registry; a
pointer to a type of another package resolves and records the package
qualifier in `ref`; anything else is an error. -/
def parseStar (resolve : String → TagData → Except String Value)
    (name : String) (tags : TagData) (x : GoExpr) :
    Except String (Option Value) :=
  match x with
  | .ident n =>
    match resolve n tags with
    | .error msg => .error msg
    | .ok v => .ok (some v)
  | .sel refName selName =>
    match resolve selName tags with
    | .error msg => .error msg
    | .ok v => .ok (some (v.withRef refName))
  | _ => .error ("cannot handle " ++ name)

/-- The `Ident` branch of `parseASTFieldType` (main.go lines 1012-1034):
basic scalar names map to their nodes; any other name resolves as an
alias through the registry, with a not-found error on failure. -/
def parseIdentTy (resolve : String → TagData → Except String Value)
    (tags : TagData) (n : String) : Except String (Option Value) :=
  if n = "uint64" then .ok (some (mkBasic Ty.uint 8))
  else if n = "uint32" then .ok (some (mkBasic Ty.uint 4))
  else if n = "uint16" then .ok (some (mkBasic Ty.uint 2))
  else if n = "uint8" then .ok (some (mkBasic Ty.uint 1))
  else if n = "bool" then .ok (some (mkBasic Ty.bool 1))
  else
    match resolve n tags with
    | .error _ => .error ("type " ++ n ++ " not found")
    | .ok vv => .ok (some vv)

/-- The `SelectorExpr` branch of `parseASTFieldType` (main.go lines
1036-1069): go-bitfield bitlists and bitvectors get their own nodes
sized from the tags; any other selector is an external reference,
resolved and annotated with the package qualifier and `noPtr`. -/
def parseSel (resolve : String → TagData → Except String Value)
    (name : String) (tags : TagData) (base selName : String) :
    Except String (Option Value) :=
  if selName = "Bitlist" then
    match tags.sszMax with
    | none => .error ("bitlist " ++ name ++ " does not have ssz-max tag")
    | some maxSize =>
      .ok (some (.mk "" "" maxSize Ty.bitlist [] none false maxSize "" false false))
  else if goHasPre selName "Bitvector" then
    match tags.dims with
    | .error _ => .error ("failed to parse ssz-size tag for bitvector " ++ name)
    | .ok dims =>
      match dims.getLast? with
      | none => .error ("did not find any ssz tags for the bitvector named " ++ name)
      | some tailDim =>
        if tailDim.isVector then
          .ok (some (.mk "" "" tailDim.vLen Ty.bytes [] none false 0 "" false true))
        else .error ("bitvector tag parse failed for " ++ name)
  else
    match resolve selName tags with
    | .error msg => .error msg
    | .ok vv => .ok (some ((vv.withRef base).withNoPtr true))

/-- One dimension's header updates and fixed-length literal checks
(main.go lines 933-969): set the vector/list header from the annotation;
when the array has a literal length, it must parse, the dimension must
have produced a vector, and the vector length must equal the literal. -/
def dimCheck (name : String) (dim : Dim) (clen : Option LenLit) (vb : VB) :
    Except String VB :=
  let vb1 := if dim.isVector then { vb with t := Ty.vector, s := dim.vLen } else vb
  let vb2 := if dim.isList then
      { vb1 with t := Ty.list, m := dim.lLen, s := dim.lLen } else vb1
  match clen with
  | none => .ok vb2
  | some LenLit.notLit =>
    .error ("failed to parse field " ++ name ++
      ". byte array definition not understood by go/ast")
  | some LenLit.bad =>
    .error ("Could not parse array length for field " ++ name)
  | some (LenLit.num n) =>
    let vb3 := { vb2 with c := true }
    if vb3.t ≠ Ty.vector then
      .error ("unexpected type for fixed size array, name=" ++ name)
    else if vb3.s ≠ n then
      .error ("Unexpected mismatch between ssz-size and array fixed size, name=" ++ name)
    else .ok vb3

/-- The byte-element overwrite of the dimension loop (main.go lines
982-994): the node becomes `TypeBytes`, `fixed` is set for a vector
dimension, and a bitlist dimension turns it into `TypeBitList`. -/
def byteVB (dim : Dim) (vb : VB) : VB :=
  let vb4 := { vb with t := Ty.bytes }
  let vb5 := if dim.isVector then { vb4 with fixed := true } else vb4
  if dim.isBitlist then { vb5 with t := Ty.bitlist } else vb5

mutual

/-- `env.parseASTFieldType` of main.go (lines 894-1074).  The registry
resolution `e.encodeItem(name, tags)` is abstracted as the `resolve`
parameter (its caching/copy behaviour is modelled separately on the heap
below); everything else follows the source case by case.  A `"-"` ssz
tag yields `.ok none` (the omitted-field `nil, nil` return).  The
`default` branch of the source panics on an unexpected expression; that
panic is modelled as an error result. -/
def parseASTFieldType (resolve : String → TagData → Except String Value)
    (name : String) (tags : TagData) (expr : GoExpr) :
    Except String (Option Value) :=
  if tags.ssz = some "-" then .ok none
  else
    match expr with
    | .star x => parseStar resolve name tags x
    | .arr len elt =>
      match tags.dims with
      | .error msg => .error msg
      | .ok dims =>
        match dimsLoop resolve name tags dims len elt {} with
        | .error msg => .error msg
        | .ok v => .ok (some v)
    | .ident n => parseIdentTy resolve tags n
    | .sel base selName => parseSel resolve name tags base selName
    | .other => .error "ast type not expected"
termination_by (sizeOf expr, 0, 0)

/-- The `for _, dim := range dims` loop of the `ArrayType` branch
(main.go lines 932-1010).  `clen`/`celt` are the `Len` and `Elt` of the
current `collectionExpr`; `vb` holds the header of the node under
construction.  The loop advances to a fresh node only for a nested
`ArrayType` element; for `byte` and for resolved elements it keeps
editing the same node with the next dimension, exactly as the source
does. -/
def dimsLoop (resolve : String → TagData → Except String Value)
    (name : String) (tags : TagData) (dims : List Dim)
    (clen : Option LenLit) (celt : GoExpr) (vb : VB) :
    Except String Value :=
  match dims with
  | [] => .ok vb.toValue
  | dim :: rest =>
    match dimCheck name dim clen vb with
    | .error msg => .error msg
    | .ok vb3 =>
      match celt with
      | .arr clen2 celt2 =>
        match dimsLoop resolve name tags rest clen2 celt2 {} with
        | .error msg => .error msg
        | .ok inner => .ok ({ vb3 with e := some inner }).toValue
      | .ident en =>
        if en = "byte" then
          dimsLoop resolve name tags rest clen (.ident en) (byteVB dim vb3)
        else
          match parseASTFieldType resolve name tags (.ident en) with
          | .error msg => .error msg
          | .ok element =>
            dimsLoop resolve name tags rest clen (.ident en) { vb3 with e := element }
      | ce =>
        match parseASTFieldType resolve name tags ce with
        | .error msg => .error msg
        | .ok element => dimsLoop resolve name tags rest clen ce { vb3 with e := element }
termination_by (sizeOf celt, 1, dims.length)

end

/-- `isExportedField` of main.go (lines 1076-1078): the first byte of the
name is at most 90 (ASCII `Z`).  The source indexes byte zero and would
panic on an empty name, which cannot occur for a parsed Go identifier;
the model returns `false` there. -/
def isExportedField (str : String) : Bool :=
  match str.data with
  | [] => false
  | ch :: _ => ch.toNat ≤ 90

/-- One field of a Go struct declaration: the `*ast.Field` data consumed
by `parseASTStructType` (names, tag, type expression). -/
structure GoField where
  names : List String
  tags : TagData
  ty : GoExpr

/-- The field loop of `env.parseASTStructType` (main.go lines 862-888):
skip fields with other than one name, unexported names, `XXX_` names;
parse the rest in declaration order, dropping fields whose parse returns
nil (the `ssz:"-"` omission). -/
def structFields (resolve : String → TagData → Except String Value) :
    List GoField → Except String (List Value)
  | [] => .ok []
  | f :: rest =>
    match f.names with
    | [fname] =>
      if !isExportedField fname then structFields resolve rest
      else if goHasPre fname "XXX_" then structFields resolve rest
      else
        match parseASTFieldType resolve fname f.tags f.ty with
        | .error msg => .error msg
        | .ok none => structFields resolve rest
        | .ok (some elem) =>
          match structFields resolve rest with
          | .error msg => .error msg
          | .ok restVals => .ok ((elem.withName fname) :: restVals)
    | _ => structFields resolve rest

/-- `env.parseASTStructType` of main.go (lines 855-891): a container node
whose ordered fields come from the struct's field list. -/
def parseASTStructType (resolve : String → TagData → Except String Value)
    (name : String) (fields : List GoField) : Except String Value :=
  match structFields resolve fields with
  | .error msg => .error msg
  | .ok fs => .ok (.mk name "" 0 Ty.container fs none false 0 "" false false)

/-- Receiver of a Go function declaration: absent, a pointer receiver on
a plain identifier (`func (m *T) ...`), or anything else (skipped by the
source, which only allows pointer functions). -/
inductive RecvKind where
  | noRecv
  | ptrIdent (obj : String)
  | otherRecv
deriving DecidableEq, Repr, BEq

/-- A Go method/function declaration as consumed by `decodeASTStruct` and
`isSpecificFunc`: the parameter and result type expressions are kept as
their printed text, which is what `isSpecificFunc` compares (it renders
each `ast.Expr` through `format.Node` and compares strings). -/
structure FuncAst where
  fname : String
  recv : RecvKind
  params : List String
  results : List String
deriving DecidableEq, Repr, BEq

/-- The body of one Go `TypeSpec`: a struct, an interface, or an alias to
some other type expression. -/
inductive TypeBody where
  | structTy (fields : List GoField)
  | interfaceTy
  | aliasTy (e : GoExpr)

/-- One `TypeSpec` of a Go `GenDecl`. -/
structure TypeSpecAst where
  tname : String
  body : TypeBody

/-- One top-level Go declaration as consumed by `decodeASTStruct`. -/
inductive GoDecl where
  | typeDecl (specs : List TypeSpecAst)
  | funcDecl (f : FuncAst)
  | otherDecl

/-- A parsed Go file: its package name and declarations. -/
structure GoFile where
  packName : String
  decls : List GoDecl

/-- `isSpecificFunc` of main.go (lines 588-618): parameter and result
type lists must match the expected rendered strings position by
position. -/
def isSpecificFunc (f : FuncAst) (inTys outTys : List String) : Bool :=
  f.params == inTys && f.results == outTys

/-- `isFuncDecl` of main.go (lines 620-635): recognises the four SSZ
methods by name and exact signature. -/
def isFuncDecl (f : FuncAst) : Bool :=
  if f.fname = "SizeSSZ" then isSpecificFunc f [] ["int"]
  else if f.fname = "MarshalSSZTo" then isSpecificFunc f ["[]byte"] ["[]byte", "error"]
  else if f.fname = "UnmarshalSSZ" then isSpecificFunc f ["[]byte"] ["error"]
  else if f.fname = "HashTreeRootWith" then isSpecificFunc f ["*ssz.Hasher"] ["error"]
  else false

/-- Whether a declaration increments `funcRefs[obj]` in `decodeASTStruct`
(main.go lines 564-577): a function declaration with a pointer receiver
on identifier `obj` that passes `isFuncDecl`. -/
def declCounted (obj : String) (d : GoDecl) : Bool :=
  match d with
  | .funcDecl f => f.recv == RecvKind.ptrIdent obj && isFuncDecl f
  | _ => false

/-- The final value of `funcRefs[obj]` after the declaration loop of
`decodeASTStruct`. -/
def funcRefCount (decls : List GoDecl) (obj : String) : Nat :=
  decls.countP (fun d => declCounted obj d)

/-- Membership of `obj` in `res.funcs` (main.go lines 579-584): the
counter must be exactly 4 ("it implements all the interface
functions"). -/
def fileImplements (decls : List GoDecl) (obj : String) : Bool :=
  funcRefCount decls obj == 4

/-- The names of the counted method declarations for `obj`, in
declaration order.  `fileImplements` holds exactly when this list has
length 4. -/
def implMethodNames (decls : List GoDecl) (obj : String) : List String :=
  decls.filterMap (fun d =>
    match d with
    | .funcDecl f => if f.recv == RecvKind.ptrIdent obj && isFuncDecl f
        then some f.fname else none
    | _ => none)

/-- `astStruct` of main.go (lines 515-522): `obj` is the struct field
list when the spec is a struct, `typ` the aliased expression when it is a
non-interface alias. -/
structure AstStructR where
  sname : String
  obj : Option (List GoField)
  packName : String
  typ : Option GoExpr
  implFunc : Bool
  isRef : Bool

/-- The `TypeSpec` processing of `decodeASTStruct` (main.go lines
541-562): structs keep their field list, interfaces are skipped, other
specs are recorded as aliases; `implFunc`/`isRef` start false. -/
def specToAstStruct (packName : String) (sp : TypeSpecAst) : Option AstStructR :=
  match sp.body with
  | .structTy fields =>
    some { sname := sp.tname, obj := some fields, packName := packName,
           typ := none, implFunc := false, isRef := false }
  | .interfaceTy => none
  | .aliasTy e =>
    some { sname := sp.tname, obj := none, packName := packName,
           typ := some e, implFunc := false, isRef := false }

/-- The `res.objs` list produced by `decodeASTStruct` for one file, in
declaration order. -/
def decodeObjs (file : GoFile) : List AstStructR :=
  file.decls.flatMap (fun d =>
    match d with
    | .typeDecl specs => specs.filterMap (specToAstStruct file.packName)
    | _ => [])

/-- The build branch of `env.encodeItem` (main.go lines 836-846): a raw
item with `implFunc` becomes a `TypeReference` node whose `s` is the
ssz-size tag (0 when absent) and whose `noPtr` records `raw.obj == nil`;
a struct goes through `parseASTStructType`; an alias goes through
`parseASTFieldType` (whose nil result, possible only for an `ssz:"-"`
tag, is surfaced as `none`; the source would dereference nil there).
`decodeASTStruct` guarantees `obj` or `typ` is set; the impossible
remaining case is an error. -/
def registryValue (resolve : String → TagData → Except String Value)
    (raw : AstStructR) (tags : TagData) : Except String (Option Value) :=
  if raw.implFunc then
    .ok (some (.mk "" "" (tags.sszSize.getD 0) Ty.reference [] none false 0 ""
      raw.obj.isNone false))
  else
    match raw.obj with
    | some fields =>
      match parseASTStructType resolve raw.sname fields with
      | .error msg => .error msg
      | .ok v => .ok (some v)
    | none =>
      match raw.typ with
      | some e => parseASTFieldType resolve raw.sname tags e
      | none => .error "unreachable: raw item without struct or alias"

/-- The key on which `checkObjByPackage` (main.go lines 697-704) matches:
both the struct name and the package name. -/
def objKey (o : AstStructR) : String × String := (o.packName, o.sname)

/-- `checkObjByPackage` of `env.generateIR`: find a previously registered
item with the same name and package. -/
def checkObjByPackage (raw : List AstStructR) (packName sname : String) :
    Option AstStructR :=
  raw.find? (fun item => item.sname == sname && item.packName == packName)

/-- The `addStructs` closure of `env.generateIR` (main.go lines 708-717):
register each decoded object in order, failing when its (package, name)
pair is already present. -/
def addStructs (raw : List AstStructR) (objs : List AstStructR) (isRef : Bool) :
    Except String (List AstStructR) :=
  match objs with
  | [] => .ok raw
  | i :: rest =>
    match checkObjByPackage raw i.packName i.sname with
    | some _ => .error ("two structs share the same name " ++ i.sname)
    | none => addStructs (raw ++ [{ i with isRef := isRef }]) rest isRef

/-- Registration of a list of files via `addStructs`, as done by the two
file loops of `generateIR` (main.go lines 762-789). -/
def addAllFiles (raw : List AstStructR) (files : List GoFile) (isRef : Bool) :
    Except String (List AstStructR) :=
  match files with
  | [] => .ok raw
  | f :: rest =>
    match addStructs raw (decodeObjs f) isRef with
    | .error msg => .error msg
    | .ok raw2 => addAllFiles raw2 rest isRef

/-- The registration phase of `env.generateIR`: source files with
`isRef = false`, then include files with `isRef = true`, starting from an
empty `e.raw`. -/
def registerAll (sourceFiles includeFiles : List GoFile) :
    Except String (List AstStructR) :=
  match addAllFiles [] sourceFiles false with
  | .error msg => .error msg
  | .ok raw => addAllFiles raw includeFiles true

/-- `detectImports` of main.go (lines 480-504), restricted to the
refs it computes; the `TypeList`/`TypeVector` case dereferences `i.e`
and panics on a nil element, modelled as `none`. -/
def detectImports (v : Value) : Option (List String) :=
  match v.o.mapM (fun i =>
    match i.t with
    | Ty.reference => some (if !i.noPtr then i.ref else "")
    | Ty.container => some i.ref
    | Ty.list => i.e.map Value.ref
    | Ty.vector => i.e.map Value.ref
    | _ => some i.ref) with
  | none => none
  | some refs => some (refs.filter (fun r => r ≠ ""))

/-- The object-selection loop of `env.print` (main.go lines 397-428):
walk `order`; skip excluded names and names without an IR object; run
`detectImports`; skip fixed basic aliases (`obj.isFixed() &&
isBasicType(obj)`), which are encoded inside their parent container;
every other name contributes exactly one set of generated procedures.
Returns the names that get a procedure set, or `none` when `isFixed` or
`detectImports` panics. -/
def printSelect (excludeTypeNames : String → Bool) (objs : String → Option Value) :
    List String → Option (List String)
  | [] => some []
  | name :: rest =>
    if excludeTypeNames name then printSelect excludeTypeNames objs rest
    else
      match objs name with
      | none => printSelect excludeTypeNames objs rest
      | some obj =>
        match detectImports obj with
        | none => none
        | some _ =>
          match obj.isFixed with
          | none => none
          | some fx =>
            if fx && isBasicType obj then printSelect excludeTypeNames objs rest
            else
              match printSelect excludeTypeNames objs rest with
              | none => none
              | some l => some (name :: l)

/-!
Heap model.  The Go `Value` is a pointer structure (`o []*Value`,
`e *Value`); `Value.copy` and the per-use annotations of `encodeItem`
callers mutate cells through those pointers.  To reason about aliasing we
model the heap explicitly: a `Cell` is one allocated `Value` whose
children are addresses, a store is the list of allocated cells (the
address is the index, allocation appends), and `readV` extracts the tree
`Value` a cell denotes together with the list of addresses it traverses.
-/

/-- One heap-allocated `Value`: same fields as the Go struct, with the
`o` and `e` pointers as store addresses. -/
structure Cell where
  name : String
  obj : String
  s : Nat
  t : Ty
  o : List Nat
  e : Option Nat
  c : Bool
  m : Nat
  ref : String
  noPtr : Bool
  fixed : Bool

abbrev Store := List Cell

mutual

/-- Read the tree denoted by address `a`, returning it with the list of
addresses visited (root first).  `fuel` bounds the unfolding; a cycle or
dangling pointer exhausts it or fails the lookup. -/
def readV (fuel : Nat) (st : Store) (a : Nat) : Option (Value × List Nat) :=
  match fuel with
  | 0 => none
  | fuel + 1 =>
    match st.get? a with
    | none => none
    | some c =>
      match readVList fuel st c.o with
      | none => none
      | some (vs, lo) =>
        match c.e with
        | none =>
          some (.mk c.name c.obj c.s c.t vs none c.c c.m c.ref c.noPtr c.fixed, a :: lo)
        | some ea =>
          match readV fuel st ea with
          | none => none
          | some (ve, le) =>
            some (.mk c.name c.obj c.s c.t vs (some ve) c.c c.m c.ref c.noPtr c.fixed,
              a :: (lo ++ le))
termination_by (fuel, 0)

def readVList (fuel : Nat) (st : Store) (l : List Nat) :
    Option (List Value × List Nat) :=
  match l with
  | [] => some ([], [])
  | a :: rest =>
    match readV fuel st a with
    | none => none
    | some (v, la) =>
      match readVList fuel st rest with
      | none => none
      | some (vs, lr) => some (v :: vs, la ++ lr)
termination_by (fuel, l.length + 1)

end

mutual

/-- `Value.copy` of main.go (lines 215-226) on the heap model: copy the
cell, deep-copying every `o` child in order and then the `e` child, and
allocate the copied cell.  Allocation appends to the store (the source
allocates the root first and the children later; the order of fresh
addresses is unobservable, only their freshness matters).  `fuel` bounds
the recursion depth, which the Go original does not need on the acyclic
structures the builder creates. -/
def copyVal (fuel : Nat) (st : Store) (a : Nat) : Option (Store × Nat) :=
  match fuel with
  | 0 => none
  | fuel + 1 =>
    match st.get? a with
    | none => none
    | some c =>
      match copyList fuel st c.o with
      | none => none
      | some (st1, os) =>
        match c.e with
        | none => some (st1 ++ [{ c with o := os, e := none }], st1.length)
        | some ea =>
          match copyVal fuel st1 ea with
          | none => none
          | some (st2, a2) => some (st2 ++ [{ c with o := os, e := some a2 }], st2.length)
termination_by (fuel, 0)

def copyList (fuel : Nat) (st : Store) (l : List Nat) :
    Option (Store × List Nat) :=
  match l with
  | [] => some (st, [])
  | a :: rest =>
    match copyVal fuel st a with
    | none => none
    | some (st1, a1) =>
      match copyList fuel st1 rest with
      | none => none
      | some (st2, rest2) => some (st2, a1 :: rest2)
termination_by (fuel, l.length + 1)

end

/-- Update the cell at address `a` in place (no-op when the address is
not allocated, which the callers below never do). -/
def updCell (st : Store) (a : Nat) (f : Cell → Cell) : Store :=
  match st.get? a with
  | none => st
  | some c => st.set a (f c)

/-- The per-use annotation `v.ref = r` written by `parseASTFieldType`
callers into the node returned by `encodeItem` (main.go lines 916,
1067). -/
def setCellRef (st : Store) (a : Nat) (r : String) : Store :=
  updCell st a (fun c => { c with ref := r })

/-- The per-use annotation `v.noPtr = b` (main.go line 1068). -/
def setCellNoPtr (st : Store) (a : Nat) (b : Bool) : Store :=
  updCell st a (fun c => { c with noPtr := b })

/-- The memoization map `e.objs` keyed by type name, holding the address
of the registry node. -/
def lookupObj (objs : List (String × Nat)) (name : String) : Option Nat :=
  (objs.find? (fun p => p.1 == name)).map (fun p => p.2)

/-- `env.encodeItem` (main.go lines 828-852) on the heap model.  On a
cache hit the tags are not consulted at all and the registry node is
deep-copied (`v.copy()`).  The cache-miss branch (first build of the
named type, lines 831-849) is abstracted as the `build` parameter; the
claims proved below hold for every build behaviour. -/
def encodeItemH (build : String → String → Store → Option (Store × Nat))
    (objs : List (String × Nat)) (fuel : Nat) (st : Store)
    (name tags : String) : Option (Store × Nat) :=
  match lookupObj objs name with
  | some a => copyVal fuel st a
  | none => build name tags st

/-!
Classifier lemmas: on well-formed nodes `Value.isFixed` returns normally
and agrees with the specification's fixed-size table.
-/

mutual

theorem isFixed_eq_spec : ∀ (v : Value), wfValue v = true →
    Value.isFixed v = some (specFixed v)
  | .mk _ _ _ Ty.uint _ _ _ _ _ _ _, _ => rfl
  | .mk _ _ _ Ty.bool _ _ _ _ _ _ _, _ => rfl
  | .mk _ _ _ Ty.list _ _ _ _ _ _ _, _ => rfl
  | .mk _ _ _ Ty.bitlist _ _ _ _ _ _ _, _ => rfl
  | .mk _ _ _ Ty.bytes _ _ _ _ _ _ _, _ => rfl
  | .mk _ _ _ Ty.reference _ _ _ _ _ _ _, _ => rfl
  | .mk _ _ _ Ty.undefined o e _ _ _ _ _, h => by
    simp [wfValue] at h
    exact absurd h.1.1.1 (by decide)
  | .mk n ob s Ty.vector o e c m r np fx, h => by
    match e with
    | none =>
      simp [wfValue] at h
      exact absurd h.1.1.2 (by decide)
    | some ev =>
      have hev : wfValue ev = true := by
        simp [wfValue, wfElem, Bool.and_eq_true] at h
        exact h.1.2
      have ih := isFixed_eq_spec ev hev
      simp [Value.isFixed, specFixed, isFixedElem, specFixedElem, ih]
  | .mk n ob s Ty.container o e c m r np fx, h => by
    have ho : wfFields o = true := by
      simp [wfValue, Bool.and_eq_true] at h
      exact h.2
    have ih := isFixedFields_eq_spec o ho
    simp [Value.isFixed, specFixed, ih]

theorem isFixedFields_eq_spec : ∀ (l : List Value), wfFields l = true →
    isFixedFields l = some (specFixedFields l)
  | [], _ => rfl
  | f :: rest, h => by
    have hp : wfValue f = true ∧ wfFields rest = true := by
      simpa [wfFields, Bool.and_eq_true] using h
    have hf := isFixed_eq_spec f hp.1
    have hr := isFixedFields_eq_spec rest hp.2
    cases hsf : specFixed f with
    | false => simp [isFixedFields, hf, hsf, specFixedFields]
    | true => simp [isFixedFields, hf, hsf, specFixedFields, hr]

end

/-- A fixed-size demonstration node: a container of a uint and a list. -/
def demoCont : Value :=
  .mk "C" "C" 0 Ty.container
    [mkBasic Ty.uint 8, .mk "L" "" 4 Ty.list [] (some (mkBasic Ty.uint 1)) false 4 "" false false]
    none false 0 "" false false

/-- C1: the fixed-size classifier `isFixed`, applied to any well-formed
model node, returns normally and its verdict is exactly the
specification's table (`specFixed`): true for Basic-Uint and Basic-Bool;
false for List and Bitlist; for a Vector, its element's verdict; for a
Container, true iff every field's verdict is true; for Bytes, the
fixed-width flag; for a Reference, true iff the bound width is
nonzero. -/
theorem claim_C1_isFixed_matches_spec_table (v : Value) (h : wfValue v = true) :
    Value.isFixed v = some (specFixed v) :=
  isFixed_eq_spec v h

theorem claim_C1_witness :
    wfValue demoCont = true ∧ Value.isFixed demoCont = some (specFixed demoCont) :=
  ⟨rfl, claim_C1_isFixed_matches_spec_table demoCont rfl⟩

/-- C10: `isFixed` returns a boolean without panicking on every node all
of whose reachable sub-nodes have a defined kind and whose vectors carry
a non-nil element (`wfValue`); on a node whose kind is the undefined
sentinel it panics (returns no boolean) instead. -/
theorem claim_C10_isFixed_totality (v : Value) :
    (wfValue v = true → (Value.isFixed v).isSome = true) ∧
      (v.t = Ty.undefined → Value.isFixed v = none) := by
  constructor
  · intro h
    rw [isFixed_eq_spec v h]
    rfl
  · intro h
    match v with
    | .mk n ob s t o e c m r np fx =>
      have ht : t = Ty.undefined := h
      subst ht
      rfl

def demoUndef : Value := .mk "" "" 0 Ty.undefined [] none false 0 "" false false

theorem claim_C10_witness :
    ((wfValue demoCont = true → (Value.isFixed demoCont).isSome = true) ∧
      (demoCont.t = Ty.undefined → Value.isFixed demoCont = none)) ∧
      Value.isFixed demoUndef = none :=
  ⟨claim_C10_isFixed_totality demoCont,
    (claim_C10_isFixed_totality demoUndef).2 rfl⟩

/-- C6: a dimension whose element type is the byte scalar collapses to a
single node (no `e` element, no `o` fields, hence no `Basic-Uint(1)`
element node): a fixed-width `Bytes` node for a vector dimension, a
variable `Bytes` node for a list dimension, and a `Bitlist` node for a
bitlist dimension. -/
theorem claim_C6_byte_collapse
    (resolve : String → TagData → Except String Value) (name : String)
    (tags : TagData) (d : Dim)
    (hssz : tags.ssz ≠ some "-") (hdims : tags.dims = .ok [d]) :
    (∀ k, d = ⟨some k, none, false⟩ →
      parseASTFieldType resolve name tags (.arr none (.ident "byte")) =
        .ok (some (.mk "" "" k Ty.bytes [] none false 0 "" false true)) ∧
      parseASTFieldType resolve name tags (.arr (some (.num k)) (.ident "byte")) =
        .ok (some (.mk "" "" k Ty.bytes [] none true 0 "" false true))) ∧
    (∀ mlen, d = ⟨none, some mlen, false⟩ →
      parseASTFieldType resolve name tags (.arr none (.ident "byte")) =
        .ok (some (.mk "" "" mlen Ty.bytes [] none false mlen "" false false))) ∧
    (d.isBitlist = true →
      ∀ v, parseASTFieldType resolve name tags (.arr none (.ident "byte")) = .ok (some v) →
        v.t = Ty.bitlist ∧ v.e = none ∧ v.o = []) := by
  refine ⟨?_, ?_, ?_⟩
  · rintro k rfl
    constructor
    · simp [parseASTFieldType, dimsLoop, if_neg hssz, hdims, dimCheck, byteVB,
        Dim.isVector, Dim.isList, Dim.isBitlist, Dim.vLen, VB.toValue]
    · simp [parseASTFieldType, dimsLoop, if_neg hssz, hdims, dimCheck, byteVB,
        Dim.isVector, Dim.isList, Dim.isBitlist, Dim.vLen, VB.toValue]
  · rintro mlen rfl
    simp [parseASTFieldType, dimsLoop, if_neg hssz, hdims, dimCheck, byteVB,
      Dim.isVector, Dim.isList, Dim.isBitlist, Dim.lLen, VB.toValue]
  · intro hb v hrun
    obtain ⟨vl, ll, bl⟩ := d
    have hbl : bl = true := hb
    subst hbl
    match vl, ll with
    | none, none =>
      simp [parseASTFieldType, dimsLoop, if_neg hssz, hdims, dimCheck, byteVB,
        Dim.isVector, Dim.isList, Dim.isBitlist, VB.toValue] at hrun
      subst hrun
      exact ⟨rfl, rfl, rfl⟩
    | none, some m2 =>
      simp [parseASTFieldType, dimsLoop, if_neg hssz, hdims, dimCheck, byteVB,
        Dim.isVector, Dim.isList, Dim.isBitlist, Dim.lLen, VB.toValue] at hrun
      subst hrun
      exact ⟨rfl, rfl, rfl⟩
    | some k2, none =>
      simp [parseASTFieldType, dimsLoop, if_neg hssz, hdims, dimCheck, byteVB,
        Dim.isVector, Dim.isList, Dim.isBitlist, Dim.vLen, VB.toValue] at hrun
      subst hrun
      exact ⟨rfl, rfl, rfl⟩
    | some k2, some m2 =>
      simp [parseASTFieldType, dimsLoop, if_neg hssz, hdims, dimCheck, byteVB,
        Dim.isVector, Dim.isList, Dim.isBitlist, Dim.vLen, Dim.lLen, VB.toValue] at hrun
      subst hrun
      exact ⟨rfl, rfl, rfl⟩

/-- Tag data used by concrete witnesses: no ssz tag, no maxima, one
vector dimension of length 5. -/
def demoTagsV5 : TagData :=
  { ssz := none, sszMax := none, sszSize := none,
    dims := .ok [⟨some 5, none, false⟩] }

def demoResolve : String → TagData → Except String Value :=
  fun n _ => .error ("could not find struct with name " ++ n)

/-- A field parse returns the nil node (field omitted) exactly when the
field's ssz tag is the omission marker. -/
theorem parse_ok_none_iff (resolve : String → TagData → Except String Value)
    (name : String) (tags : TagData) (e : GoExpr) :
    parseASTFieldType resolve name tags e = .ok none ↔ tags.ssz = some "-" := by
  constructor
  · intro h
    by_cases hne : tags.ssz = some "-"
    · exact hne
    exfalso
    match e with
    | .star x =>
      match x with
      | .ident n =>
        rcases hr : resolve n tags with msg | vv <;>
          simp [parseASTFieldType, if_neg hne, parseStar, hr] at h
      | .sel b s2 =>
        rcases hr : resolve s2 tags with msg | vv <;>
          simp [parseASTFieldType, if_neg hne, parseStar, hr] at h
      | .star y => simp [parseASTFieldType, if_neg hne, parseStar] at h
      | .arr l2 e2 => simp [parseASTFieldType, if_neg hne, parseStar] at h
      | .other => simp [parseASTFieldType, if_neg hne, parseStar] at h
    | .arr len elt =>
      rcases hd : tags.dims with msg | dims
      · simp [parseASTFieldType, if_neg hne, hd] at h
      · rcases hl : dimsLoop resolve name tags dims len elt {} with msg | v <;>
          simp [parseASTFieldType, if_neg hne, hd, hl] at h
    | .ident n =>
      by_cases h64 : n = "uint64"
      · simp [parseASTFieldType, if_neg hne, parseIdentTy, h64] at h
      by_cases h32 : n = "uint32"
      · simp [parseASTFieldType, if_neg hne, parseIdentTy, h64, h32] at h
      by_cases h16 : n = "uint16"
      · simp [parseASTFieldType, if_neg hne, parseIdentTy, h64, h32, h16] at h
      by_cases h8 : n = "uint8"
      · simp [parseASTFieldType, if_neg hne, parseIdentTy, h64, h32, h16, h8] at h
      by_cases hbo : n = "bool"
      · simp [parseASTFieldType, if_neg hne, parseIdentTy, h64, h32, h16, h8, hbo] at h
      rcases hr : resolve n tags with msg | vv <;>
        simp [parseASTFieldType, if_neg hne, parseIdentTy, h64, h32, h16, h8, hbo, hr] at h
    | .sel base s2 =>
      by_cases hbit : s2 = "Bitlist"
      · rcases hm : tags.sszMax with _ | mx <;>
          simp [parseASTFieldType, if_neg hne, parseSel, hbit, hm] at h
      by_cases hbv : goHasPre s2 "Bitvector" = true
      · rcases hd : tags.dims with msg | dims
        · simp [parseASTFieldType, if_neg hne, parseSel, hbit, hbv, hd] at h
        · rcases hlast : dims.getLast? with _ | tailDim
          · simp [parseASTFieldType, if_neg hne, parseSel, hbit, hbv, hd, hlast] at h
          · by_cases htv : tailDim.isVector = true <;>
              simp [parseASTFieldType, if_neg hne, parseSel, hbit, hbv, hd, hlast, htv] at h
      rcases hr : resolve s2 tags with msg | vv <;>
        simp [parseASTFieldType, if_neg hne, parseSel, hbit, hbv, hr] at h
    | .other => simp [parseASTFieldType, if_neg hne] at h
  · intro h
    rw [parseASTFieldType.eq_def, if_pos h]

/-- The field filter of the claim: a struct field contributes a container
field exactly when it has a single name that is exported, does not start
with the protobuf marker, and is not omitted by an `ssz:"-"` tag. -/
def keptName (f : GoField) : Option String :=
  match f.names with
  | [n] =>
    if isExportedField n && !(goHasPre n "XXX_") && !(f.tags.ssz == some "-")
    then some n else none
  | _ => none

theorem structFields_names (resolve : String → TagData → Except String Value) :
    ∀ (fields : List GoField) (vs : List Value),
      structFields resolve fields = .ok vs →
      vs.map Value.name = fields.filterMap keptName := by
  intro fields
  induction fields with
  | nil =>
    intro vs h
    simp [structFields] at h
    subst h
    rfl
  | cons f rest ih =>
    intro vs h
    match hn : f.names with
    | [fname] =>
      by_cases hexp : isExportedField fname = true
      · by_cases hxxx : goHasPre fname "XXX_" = true
        · simp only [structFields, hn] at h
          rw [if_neg (by simp [hexp]), if_pos hxxx] at h
          rw [ih vs h]
          simp [keptName, hn, hxxx]
        · simp only [structFields, hn] at h
          rw [if_neg (by simp [hexp]), if_neg hxxx] at h
          rcases hp : parseASTFieldType resolve fname f.tags f.ty with msg | elem
          · rw [hp] at h; exact absurd h (by simp)
          · rw [hp] at h
            match elem with
            | none =>
              have hdash : f.tags.ssz = some "-" := (parse_ok_none_iff _ _ _ _).mp hp
              rw [ih vs h]
              simp [keptName, hn, hdash]
            | some elemv =>
              rcases hr : structFields resolve rest with msg | restVals
              · rw [hr] at h; exact absurd h (by simp)
              · rw [hr] at h
                have hv : vs = elemv.withName fname :: restVals := by
                  cases h; rfl
                subst hv
                have hdash : ¬ f.tags.ssz = some "-" := by
                  intro hcon
                  have hcc := (parse_ok_none_iff resolve fname f.tags f.ty).mpr hcon
                  rw [hp] at hcc
                  exact absurd hcc (by simp)
                have hname : (elemv.withName fname).name = fname := by
                  cases elemv; rfl
                simp [keptName, hn, hexp, hxxx, hdash, hname, ih restVals hr]
      · simp only [structFields, hn] at h
        rw [if_pos (by simp [hexp])] at h
        rw [ih vs h]
        simp [keptName, hn, hexp]
    | [] =>
      simp only [structFields, hn] at h
      rw [ih vs h]
      simp [keptName, hn]
    | n1 :: n2 :: more =>
      simp only [structFields, hn] at h
      rw [ih vs h]
      simp [keptName, hn]

/-- C7: the container built from a struct declaration lists exactly the
exported, single-name, non-omitted fields, in declaration order; the
build is a pure function of the declaration, so repeated builds yield the
same sequence. -/
theorem claim_C7_field_order (resolve : String → TagData → Except String Value)
    (name : String) (fields : List GoField) (v : Value)
    (h : parseASTStructType resolve name fields = .ok v) :
    v.t = Ty.container ∧ v.name = name ∧
      v.o.map Value.name = fields.filterMap keptName := by
  rcases hf : structFields resolve fields with msg | fs
  · rw [parseASTStructType, hf] at h
    exact absurd h (by simp)
  · rw [parseASTStructType, hf] at h
    have hv : v = .mk name "" 0 Ty.container fs none false 0 "" false false := by
      cases h; rfl
    subst hv
    exact ⟨rfl, rfl, structFields_names resolve fields fs hf⟩

/-- Tag data with no annotations at all. -/
def demoTagsNone : TagData :=
  { ssz := none, sszMax := none, sszSize := none, dims := .ok [] }

/-- Tag data carrying the omission marker. -/
def demoTagsDash : TagData :=
  { ssz := some "-", sszMax := none, sszSize := none, dims := .ok [] }

def demoFields : List GoField :=
  [⟨["A"], demoTagsNone, .ident "uint64"⟩,
   ⟨["lower"], demoTagsNone, .ident "uint64"⟩,
   ⟨["XXX_skip"], demoTagsNone, .ident "uint64"⟩,
   ⟨["Skipped"], demoTagsDash, .ident "uint64"⟩,
   ⟨["B"], demoTagsNone, .ident "bool"⟩]

theorem claim_C7_witness :
    parseASTStructType demoResolve "Obj" demoFields =
      .ok (.mk "Obj" "" 0 Ty.container
        [(mkBasic Ty.uint 8).withName "A", (mkBasic Ty.bool 1).withName "B"]
        none false 0 "" false false) ∧
    ((.mk "Obj" "" 0 Ty.container
        [(mkBasic Ty.uint 8).withName "A", (mkBasic Ty.bool 1).withName "B"]
        none false 0 "" false false : Value).t = Ty.container ∧
      (.mk "Obj" "" 0 Ty.container
        [(mkBasic Ty.uint 8).withName "A", (mkBasic Ty.bool 1).withName "B"]
        none false 0 "" false false : Value).name = "Obj" ∧
      ((.mk "Obj" "" 0 Ty.container
        [(mkBasic Ty.uint 8).withName "A", (mkBasic Ty.bool 1).withName "B"]
        none false 0 "" false false : Value).o.map Value.name =
          demoFields.filterMap keptName)) := by
  have hrun : parseASTStructType demoResolve "Obj" demoFields =
      .ok (.mk "Obj" "" 0 Ty.container
        [(mkBasic Ty.uint 8).withName "A", (mkBasic Ty.bool 1).withName "B"]
        none false 0 "" false false) := by
    simp [parseASTStructType, structFields, parseASTFieldType, parseIdentTy,
      demoFields, demoTagsNone, demoTagsDash, isExportedField, demoResolve,
      show goHasPre "A" "XXX_" = false from rfl,
      show goHasPre "XXX_skip" "XXX_" = true from rfl,
      show goHasPre "B" "XXX_" = false from rfl]
  exact ⟨hrun, claim_C7_field_order demoResolve "Obj" demoFields _ hrun⟩

/-- C5: a field whose Go type is a literal fixed-length array fails to
build when its dimension annotation is not a fixed vector dimension
(it is a list dimension, or declares nothing at all), or when the
annotation's vector length differs from the literal length; when they
agree, the resulting node carries exactly the literal length (and is a
vector node unless the element is the byte scalar, which collapses per
C6). -/
theorem claim_C5_fixed_array_checks
    (resolve : String → TagData → Except String Value) (name : String)
    (tags : TagData) (k : Nat) (elt : GoExpr) (d : Dim) (rest : List Dim)
    (hssz : tags.ssz ≠ some "-") (hdims : tags.dims = .ok (d :: rest)) :
    (d.isVector = false ∨ d.isList = true →
      parseASTFieldType resolve name tags (.arr (some (.num k)) elt) =
        .error ("unexpected type for fixed size array, name=" ++ name)) ∧
    (∀ n, d.vectorLen = some n → d.listLen = none → n ≠ k →
      parseASTFieldType resolve name tags (.arr (some (.num k)) elt) =
        .error ("Unexpected mismatch between ssz-size and array fixed size, name=" ++ name)) ∧
    (rest = [] → ∀ v,
      parseASTFieldType resolve name tags (.arr (some (.num k)) elt) = .ok (some v) →
      v.s = k ∧ v.c = true ∧ (elt ≠ .ident "byte" → v.t = Ty.vector)) := by
  obtain ⟨vl, ll, bl⟩ := d
  refine ⟨?_, ?_, ?_⟩
  · intro hcase
    match vl, ll with
    | none, none =>
      simp [parseASTFieldType, dimsLoop, if_neg hssz, hdims, dimCheck,
        Dim.isVector, Dim.isList]
    | none, some m2 =>
      simp [parseASTFieldType, dimsLoop, if_neg hssz, hdims, dimCheck,
        Dim.isVector, Dim.isList, Dim.lLen]
    | some n2, some m2 =>
      simp [parseASTFieldType, dimsLoop, if_neg hssz, hdims, dimCheck,
        Dim.isVector, Dim.isList, Dim.vLen, Dim.lLen]
    | some n2, none =>
      exfalso
      simp [Dim.isVector, Dim.isList] at hcase
  · rintro n hvl rfl hnk
    obtain rfl : vl = some n := hvl
    simp [parseASTFieldType, dimsLoop, if_neg hssz, hdims, dimCheck,
      Dim.isVector, Dim.isList, Dim.vLen, if_neg hnk, hnk]
  · rintro rfl v hrun
    match vl, ll with
    | none, none =>
      simp [parseASTFieldType, dimsLoop, if_neg hssz, hdims, dimCheck,
        Dim.isVector, Dim.isList] at hrun
    | none, some m2 =>
      simp [parseASTFieldType, dimsLoop, if_neg hssz, hdims, dimCheck,
        Dim.isVector, Dim.isList, Dim.lLen] at hrun
    | some n2, some m2 =>
      simp [parseASTFieldType, dimsLoop, if_neg hssz, hdims, dimCheck,
        Dim.isVector, Dim.isList, Dim.vLen, Dim.lLen] at hrun
    | some n2, none =>
      by_cases hnk : n2 = k
      · subst hnk
        match elt with
        | .arr clen2 celt2 =>
          simp [parseASTFieldType, dimsLoop, if_neg hssz, hdims, dimCheck,
            Dim.isVector, Dim.isList, Dim.vLen, VB.toValue] at hrun
          subst hrun
          exact ⟨rfl, rfl, fun _ => rfl⟩
        | .ident en =>
          by_cases hb : en = "byte"
          · subst hb
            simp [parseASTFieldType, dimsLoop, if_neg hssz, hdims, dimCheck, byteVB,
              Dim.isVector, Dim.isList, Dim.isBitlist, Dim.vLen, VB.toValue] at hrun
            by_cases hbl2 : bl = true
            · subst hbl2
              simp at hrun
              subst hrun
              exact ⟨rfl, rfl, fun hne => absurd rfl hne⟩
            · simp [Bool.eq_false_iff.mpr hbl2, hbl2] at hrun
              subst hrun
              exact ⟨rfl, rfl, fun hne => absurd rfl hne⟩
          · rcases hpe : parseASTFieldType resolve name tags (.ident en) with msg | element
            · simp [parseASTFieldType, dimsLoop, if_neg hssz, hdims, dimCheck,
                Dim.isVector, Dim.isList, Dim.vLen, if_neg hb, hpe] at hrun
            · simp [parseASTFieldType, dimsLoop, if_neg hssz, hdims, dimCheck,
                Dim.isVector, Dim.isList, Dim.vLen, if_neg hb, hpe, VB.toValue] at hrun
              subst hrun
              refine ⟨rfl, rfl, fun _ => rfl⟩
        | .star x =>
          rcases hpe : parseASTFieldType resolve name tags (.star x) with msg | element
          · simp [parseASTFieldType, dimsLoop, if_neg hssz, hdims, dimCheck,
              Dim.isVector, Dim.isList, Dim.vLen, hpe] at hrun
          · simp [parseASTFieldType, dimsLoop, if_neg hssz, hdims, dimCheck,
              Dim.isVector, Dim.isList, Dim.vLen, hpe, VB.toValue] at hrun
            subst hrun
            refine ⟨rfl, rfl, fun _ => rfl⟩
        | .sel b s2 =>
          rcases hpe : parseASTFieldType resolve name tags (.sel b s2) with msg | element
          · simp [parseASTFieldType, dimsLoop, if_neg hssz, hdims, dimCheck,
              Dim.isVector, Dim.isList, Dim.vLen, hpe] at hrun
          · simp [parseASTFieldType, dimsLoop, if_neg hssz, hdims, dimCheck,
              Dim.isVector, Dim.isList, Dim.vLen, hpe, VB.toValue] at hrun
            subst hrun
            refine ⟨rfl, rfl, fun _ => rfl⟩
        | .other =>
          rcases hpe : parseASTFieldType resolve name tags .other with msg | element
          · simp [parseASTFieldType, dimsLoop, if_neg hssz, hdims, dimCheck,
              Dim.isVector, Dim.isList, Dim.vLen, hpe] at hrun
          · simp [parseASTFieldType, dimsLoop, if_neg hssz, hdims, dimCheck,
              Dim.isVector, Dim.isList, Dim.vLen, hpe, VB.toValue] at hrun
            subst hrun
            refine ⟨rfl, rfl, fun _ => rfl⟩
      · simp [parseASTFieldType, dimsLoop, if_neg hssz, hdims, dimCheck,
          Dim.isVector, Dim.isList, Dim.vLen, hnk] at hrun

theorem claim_C5_witness :
    (demoTagsV5.ssz ≠ some "-") ∧
      ((⟨some 5, none, false⟩ : Dim).isVector = false ∨
          (⟨some 5, none, false⟩ : Dim).isList = true →
        parseASTFieldType demoResolve "F" demoTagsV5 (.arr (some (.num 7)) (.ident "uint64")) =
          .error ("unexpected type for fixed size array, name=" ++ "F")) ∧
      parseASTFieldType demoResolve "F" demoTagsV5 (.arr (some (.num 7)) (.ident "uint64")) =
        .error ("Unexpected mismatch between ssz-size and array fixed size, name=" ++ "F") := by
  have h := claim_C5_fixed_array_checks demoResolve "F" demoTagsV5 7 (.ident "uint64")
    ⟨some 5, none, false⟩ [] (by decide) rfl
  exact ⟨by decide, h.1, h.2.1 5 rfl rfl (by decide)⟩

theorem claim_C6_witness :
    (demoTagsV5.ssz ≠ some "-") ∧
      (demoTagsV5.dims = .ok [⟨some 5, none, false⟩]) ∧
      parseASTFieldType demoResolve "Root" demoTagsV5 (.arr none (.ident "byte")) =
        .ok (some (.mk "" "" 5 Ty.bytes [] none false 0 "" false true)) :=
  ⟨by decide, rfl,
    ((claim_C6_byte_collapse demoResolve "Root" demoTagsV5 ⟨some 5, none, false⟩
      (by decide) rfl).1 5 rfl).1⟩

/-- C8: the generation output of `print` contains exactly one set of
size/marshal/unmarshal/hashTreeRoot procedures per name of the order that
is not excluded, has an IR object, and is not a fixed-size alias of a
basic type (uint, bool, or fixed-width bytes); those aliases are skipped
because they are encoded inside their parent container. -/
theorem claim_C8_print_selection (excl : String → Bool)
    (objs : String → Option Value) :
    ∀ (order : List String) (l : List String),
      printSelect excl objs order = some l →
      l = order.filter (fun n => !excl n &&
        (match objs n with
         | none => false
         | some o => !(o.isFixed == some true && isBasicType o))) := by
  intro order
  induction order with
  | nil =>
    intro l h
    simp [printSelect] at h
    subst h
    rfl
  | cons name rest ih =>
    intro l h
    rw [printSelect] at h
    by_cases hex : excl name = true
    · rw [if_pos hex] at h
      rw [ih l h, List.filter_cons]
      simp [hex]
    · rw [if_neg hex] at h
      rcases hob : objs name with _ | obj
      · simp only [hob] at h
        rw [ih l h, List.filter_cons]
        simp [hex, hob]
      · simp only [hob] at h
        rcases hdi : detectImports obj with _ | refs
        · simp only [hdi] at h
          exact absurd h (by simp)
        · simp only [hdi] at h
          rcases hfx : obj.isFixed with _ | fx
          · simp only [hfx] at h
            exact absurd h (by simp)
          · simp only [hfx] at h
            by_cases hskip : (fx && isBasicType obj) = true
            · rw [if_pos hskip] at h
              rw [ih l h, List.filter_cons]
              have hp : fx = true ∧ isBasicType obj = true := by simpa using hskip
              rcases hp with ⟨hf1, hb1⟩
              subst hf1
              simp [hex, hob, hfx, hb1]
            · rw [if_neg hskip] at h
              rcases hr : printSelect excl objs rest with _ | l2
              · simp only [hr] at h
                exact absurd h (by simp)
              · simp only [hr] at h
                have hl : l = name :: l2 := by
                  cases h
                  rfl
                subst hl
                rw [ih l2 hr, List.filter_cons]
                have hnb : ((obj.isFixed == some true && isBasicType obj) = false) := by
                  rw [hfx]
                  cases fx with
                  | false => simp
                  | true =>
                    simp only [Bool.true_and] at hskip
                    rw [Bool.not_eq_true] at hskip
                    simp [hskip]
                simp [hex, hob, hnb]

def demoObjs : String → Option Value :=
  fun n => if n = "A" then some (mkBasic Ty.uint 8)
    else if n = "C" then some demoCont else none

theorem claim_C8_witness :
    printSelect (fun n => n == "E") demoObjs ["A", "C", "E", "X"] = some ["C"] ∧
      ["C"] = (["A", "C", "E", "X"].filter (fun n => !(n == "E") &&
        (match demoObjs n with
         | none => false
         | some o => !(o.isFixed == some true && isBasicType o)))) := by
  have hrun : printSelect (fun n => n == "E") demoObjs ["A", "C", "E", "X"] =
      some ["C"] := rfl
  exact ⟨hrun, claim_C8_print_selection (fun n => n == "E") demoObjs
    ["A", "C", "E", "X"] ["C"] hrun⟩

/-- The four method names recognised by `isFuncDecl`. -/
def fourNames : List String :=
  ["SizeSSZ", "MarshalSSZTo", "UnmarshalSSZ", "HashTreeRootWith"]

theorem isFuncDecl_name (f : FuncAst) (h : isFuncDecl f = true) :
    f.fname ∈ fourNames := by
  unfold isFuncDecl at h
  by_cases h1 : f.fname = "SizeSSZ"
  · simp [fourNames, h1]
  rw [if_neg h1] at h
  by_cases h2 : f.fname = "MarshalSSZTo"
  · simp [fourNames, h2]
  rw [if_neg h2] at h
  by_cases h3 : f.fname = "UnmarshalSSZ"
  · simp [fourNames, h3]
  rw [if_neg h3] at h
  by_cases h4 : f.fname = "HashTreeRootWith"
  · simp [fourNames, h4]
  rw [if_neg h4] at h
  exact absurd h (by simp)

theorem funcRefCount_eq_len (obj : String) :
    ∀ (decls : List GoDecl),
      funcRefCount decls obj = (implMethodNames decls obj).length := by
  intro decls
  induction decls with
  | nil => rfl
  | cons d rest ih =>
    match d with
    | .typeDecl specs =>
      simp [funcRefCount, implMethodNames, List.countP_cons, declCounted,
        List.filterMap_cons] at ih ⊢
      exact ih
    | .otherDecl =>
      simp [funcRefCount, implMethodNames, List.countP_cons, declCounted,
        List.filterMap_cons] at ih ⊢
      exact ih
    | .funcDecl f =>
      by_cases hc1 : (f.recv == RecvKind.ptrIdent obj) = true
      · by_cases hc2 : isFuncDecl f = true
        · simp [funcRefCount, implMethodNames, List.countP_cons, declCounted,
            List.filterMap_cons, hc1, hc2] at ih ⊢
          omega
        · simp [funcRefCount, implMethodNames, List.countP_cons, declCounted,
            List.filterMap_cons, hc1, hc2] at ih ⊢
          exact ih
      · simp [funcRefCount, implMethodNames, List.countP_cons, declCounted,
          List.filterMap_cons, hc1] at ih ⊢
        exact ih

theorem implMethodNames_subset (obj : String) :
    ∀ (decls : List GoDecl), ∀ x ∈ implMethodNames decls obj, x ∈ fourNames := by
  intro decls
  induction decls with
  | nil => intro x hx; simp [implMethodNames] at hx
  | cons d rest ih =>
    intro x hx
    match d with
    | .typeDecl specs =>
      rw [implMethodNames, List.filterMap_cons] at hx
      exact ih x hx
    | .otherDecl =>
      rw [implMethodNames, List.filterMap_cons] at hx
      exact ih x hx
    | .funcDecl f =>
      rw [implMethodNames, List.filterMap_cons] at hx
      by_cases hc : (f.recv == RecvKind.ptrIdent obj && isFuncDecl f) = true
      · simp only [hc, if_true] at hx
        rcases List.mem_cons.mp hx with hx1 | hx2
        · subst hx1
          have hfd : isFuncDecl f = true := by
            have hp : (f.recv == RecvKind.ptrIdent obj) = true ∧ isFuncDecl f = true := by
              simpa using hc
            exact hp.2
          exact isFuncDecl_name f hfd
        · exact ih x hx2
      · simp only [Bool.not_eq_true] at hc
        simp only [hc, if_false] at hx
        exact ih x hx

theorem nodup_subset_four (L : List String) (hnd : L.Nodup)
    (hsub : ∀ x ∈ L, x ∈ fourNames) :
    L.length = 4 ↔
      ("SizeSSZ" ∈ L ∧ "MarshalSSZTo" ∈ L ∧ "UnmarshalSSZ" ∈ L ∧
        "HashTreeRootWith" ∈ L) := by
  have hsubF : L.toFinset ⊆ fourNames.toFinset := by
    intro x hx
    exact List.mem_toFinset.mpr (hsub x (List.mem_toFinset.mp hx))
  have hcardL : L.toFinset.card = L.length := List.toFinset_card_of_nodup hnd
  have hcardF : fourNames.toFinset.card = 4 := by decide
  constructor
  · intro hlen
    have heq : L.toFinset = fourNames.toFinset := by
      apply Finset.eq_of_subset_of_card_le hsubF
      rw [hcardL, hlen, hcardF]
    have hmem : ∀ x ∈ fourNames, x ∈ L := by
      intro x hx
      exact List.mem_toFinset.mp (heq ▸ List.mem_toFinset.mpr hx)
    exact ⟨hmem _ (by decide), hmem _ (by decide), hmem _ (by decide),
      hmem _ (by decide)⟩
  · rintro ⟨m1, m2, m3, m4⟩
    have hsup : fourNames.toFinset ⊆ L.toFinset := by
      intro x hx
      have hx4 : x = "SizeSSZ" ∨ x = "MarshalSSZTo" ∨ x = "UnmarshalSSZ" ∨
          x = "HashTreeRootWith" := by
        simpa [fourNames] using List.mem_toFinset.mp hx
      rcases hx4 with rfl | rfl | rfl | rfl <;>
        exact List.mem_toFinset.mpr (by assumption)
    have heq : L.toFinset = fourNames.toFinset :=
      Finset.Subset.antisymm hsubF hsup
    rw [← hcardL, heq, hcardF]

/-- A `SizeSSZ` declaration with the exact expected signature on a
pointer receiver of `T`. -/
def sizeFunc : FuncAst := ⟨"SizeSSZ", .ptrIdent "T", [], ["int"]⟩

/-- A parse-level file that declares `SizeSSZ` four times (the Go type
checker would reject it, but `sszgen` runs only the parser). -/
def dupDecls : List GoDecl :=
  [.funcDecl sizeFunc, .funcDecl sizeFunc, .funcDecl sizeFunc, .funcDecl sizeFunc]

/-- C3 counterexample: the capture rule counts matching method
declarations instead of checking that all four distinct methods are
present, so a file with four duplicate `SizeSSZ` declarations (and no
`MarshalSSZTo`, `UnmarshalSSZ` or `HashTreeRootWith` at all) marks `T` as
implementing the interface, and `T` is captured as a `Reference` node —
refuting the claim that a type declaring fewer than all four matching
methods is never captured as `Reference`. -/
theorem claim_C3_counterexample :
    fileImplements dupDecls "T" = true ∧
      ("MarshalSSZTo" ∈ implMethodNames dupDecls "T" → False) ∧
      ("UnmarshalSSZ" ∈ implMethodNames dupDecls "T" → False) ∧
      ("HashTreeRootWith" ∈ implMethodNames dupDecls "T" → False) := by
  refine ⟨by decide, ?_, ?_, ?_⟩ <;> · intro h; revert h; decide

/-- C3 (amended): a named type is marked as implementing the SSZ
interface — and hence captured as a trusted `Reference` node by
`encodeItem` — exactly when the number of pointer-receiver method
declarations in its file matching the four name/signature patterns is
exactly four; when no two matching declarations share a method name
(as in any type-correct Go file), this is equivalent to the file
containing all four methods `SizeSSZ`, `MarshalSSZTo`, `UnmarshalSSZ`
and `HashTreeRootWith`, each with its exact signature on a pointer
receiver. -/
theorem claim_C3_reference_capture (decls : List GoDecl) (T : String)
    (hnd : (implMethodNames decls T).Nodup) :
    (fileImplements decls T = true ↔
      ("SizeSSZ" ∈ implMethodNames decls T ∧
        "MarshalSSZTo" ∈ implMethodNames decls T ∧
        "UnmarshalSSZ" ∈ implMethodNames decls T ∧
        "HashTreeRootWith" ∈ implMethodNames decls T)) ∧
    (∀ (resolve : String → TagData → Except String Value) (raw : AstStructR)
        (tags : TagData), raw.implFunc = true →
      ∃ v, registryValue resolve raw tags = .ok (some v) ∧ v.t = Ty.reference) := by
  constructor
  · have hlen := funcRefCount_eq_len T decls
    have hiff := nodup_subset_four (implMethodNames decls T) hnd
      (implMethodNames_subset T decls)
    rw [fileImplements, hlen]
    constructor
    · intro h
      exact hiff.mp (by simpa using h)
    · intro h
      have hlen4 := hiff.mpr h
      simp [hlen4]
  · intro resolve raw tags h
    refine ⟨Value.mk "" "" (tags.sszSize.getD 0) Ty.reference [] none false 0 ""
      raw.obj.isNone false, ?_, rfl⟩
    rw [registryValue, if_pos h]

/-- A file declaring all four SSZ methods for `T`, each once. -/
def fourDecls : List GoDecl :=
  [.funcDecl ⟨"SizeSSZ", .ptrIdent "T", [], ["int"]⟩,
   .funcDecl ⟨"MarshalSSZTo", .ptrIdent "T", ["[]byte"], ["[]byte", "error"]⟩,
   .funcDecl ⟨"UnmarshalSSZ", .ptrIdent "T", ["[]byte"], ["error"]⟩,
   .funcDecl ⟨"HashTreeRootWith", .ptrIdent "T", ["*ssz.Hasher"], ["error"]⟩]

theorem claim_C3_witness :
    (implMethodNames fourDecls "T").Nodup ∧
      (fileImplements fourDecls "T" = true ↔
        ("SizeSSZ" ∈ implMethodNames fourDecls "T" ∧
          "MarshalSSZTo" ∈ implMethodNames fourDecls "T" ∧
          "UnmarshalSSZ" ∈ implMethodNames fourDecls "T" ∧
          "HashTreeRootWith" ∈ implMethodNames fourDecls "T")) :=
  ⟨by decide, (claim_C3_reference_capture fourDecls "T" (by decide)).1⟩

/-- The isRef flag update does not change the registration key. -/
theorem objKey_setIsRef (i : AstStructR) (b : Bool) :
    objKey { i with isRef := b } = objKey i := rfl

theorem checkObj_isSome_iff (raw : List AstStructR) (pack n : String) :
    (checkObjByPackage raw pack n).isSome = true ↔ (pack, n) ∈ raw.map objKey := by
  induction raw with
  | nil => simp [checkObjByPackage]
  | cons i rest ih =>
    by_cases hp : (i.sname == n && i.packName == pack) = true
    · have hps : i.sname = n ∧ i.packName = pack := by simpa using hp
      simp [checkObjByPackage, List.find?_cons, hp, objKey, hps.1, hps.2]
    · rw [Bool.not_eq_true] at hp
      have hne : ¬ ((pack, n) = objKey i) := by
        intro hcon
        rw [objKey] at hcon
        have h1 : pack = i.packName := congrArg Prod.fst hcon
        have h2 : n = i.sname := congrArg Prod.snd hcon
        subst h1; subst h2
        simp at hp
      simp only [checkObjByPackage, List.find?_cons, hp, List.map_cons,
        List.mem_cons]
      rw [checkObjByPackage] at ih
      rw [ih]
      simp [hne]

theorem addStructs_map (b : Bool) :
    ∀ (objs raw out : List AstStructR), addStructs raw objs b = .ok out →
      out.map objKey = raw.map objKey ++ objs.map objKey := by
  intro objs
  induction objs with
  | nil =>
    intro raw out h
    simp [addStructs] at h
    subst h
    simp
  | cons i rest ih =>
    intro raw out h
    rw [addStructs] at h
    rcases hc : checkObjByPackage raw i.packName i.sname with _ | found
    · simp only [hc] at h
      have hout := ih (raw ++ [{ i with isRef := b }]) out h
      rw [hout]
      simp [objKey_setIsRef, objKey]
    · simp only [hc] at h
      exact absurd h (by simp)

theorem addStructs_isOk (b : Bool) :
    ∀ (objs raw : List AstStructR),
      (∃ out, addStructs raw objs b = .ok out) ↔
        ((objs.map objKey).Nodup ∧
          ∀ k ∈ objs.map objKey, k ∉ raw.map objKey) := by
  intro objs
  induction objs with
  | nil =>
    intro raw
    simp [addStructs]
  | cons i rest ih =>
    intro raw
    rw [addStructs]
    rcases hc : checkObjByPackage raw i.packName i.sname with _ | found
    · simp only [hc]
      have hnotin : objKey i ∉ raw.map objKey := by
        intro hcon
        have hs := (checkObj_isSome_iff raw i.packName i.sname).mpr hcon
        rw [hc] at hs
        exact absurd hs (by simp)
      constructor
      · rintro ⟨out, hout⟩
        have hrest := (ih (raw ++ [{ i with isRef := b }])).mp ⟨out, hout⟩
        rcases hrest with ⟨hnd, hdisj⟩
        refine ⟨?_, ?_⟩
        · rw [List.map_cons, List.nodup_cons]
          refine ⟨?_, hnd⟩
          intro hcon
          have hmem := hdisj _ hcon
          simp [objKey_setIsRef] at hmem
        · intro k hk
          rw [List.map_cons, List.mem_cons] at hk
          rcases hk with rfl | hk2
          · exact hnotin
          · intro hcon
            exact hdisj k hk2 (by simp [objKey_setIsRef, hcon])
      · rintro ⟨hnd, hdisj⟩
        rw [List.map_cons, List.nodup_cons] at hnd
        refine (ih (raw ++ [{ i with isRef := b }])).mpr ⟨hnd.2, ?_⟩
        intro k hk
        rw [List.map_append, List.mem_append]
        rintro (hk1 | hk2)
        · exact hdisj k (by simp [hk]) hk1
        · simp [objKey_setIsRef] at hk2
          exact hnd.1 (hk2 ▸ hk)
    · simp only [hc]
      have hin : objKey i ∈ raw.map objKey := by
        apply (checkObj_isSome_iff raw i.packName i.sname).mp
        rw [hc]
        rfl
      constructor
      · rintro ⟨out, hout⟩
        exact absurd hout (by simp)
      · rintro ⟨hnd, hdisj⟩
        exact absurd hin (hdisj (objKey i) (by simp))

/-- All registration keys contributed by a list of files, in order. -/
def fileKeys (files : List GoFile) : List (String × String) :=
  (files.map (fun f => (decodeObjs f).map objKey)).flatten

theorem addAllFiles_map (b : Bool) :
    ∀ (files : List GoFile) (raw out : List AstStructR),
      addAllFiles raw files b = .ok out →
      out.map objKey = raw.map objKey ++ fileKeys files := by
  intro files
  induction files with
  | nil =>
    intro raw out h
    simp [addAllFiles] at h
    subst h
    simp [fileKeys]
  | cons f rest ih =>
    intro raw out h
    rw [addAllFiles] at h
    rcases ha : addStructs raw (decodeObjs f) b with msg | raw2
    · rw [ha] at h; exact absurd h (by simp)
    · rw [ha] at h
      have h2 := ih raw2 out h
      have h1 := addStructs_map b (decodeObjs f) raw raw2 ha
      rw [h2, h1, fileKeys, fileKeys]
      simp

theorem addAllFiles_isOk (b : Bool) :
    ∀ (files : List GoFile) (raw : List AstStructR),
      (∃ out, addAllFiles raw files b = .ok out) ↔
        ((fileKeys files).Nodup ∧ ∀ k ∈ fileKeys files, k ∉ raw.map objKey) := by
  intro files
  induction files with
  | nil =>
    intro raw
    simp [addAllFiles, fileKeys]
  | cons f rest ih =>
    intro raw
    rw [addAllFiles]
    have hkeys : fileKeys (f :: rest) = (decodeObjs f).map objKey ++ fileKeys rest := by
      rw [fileKeys, fileKeys]
      simp
    rcases ha : addStructs raw (decodeObjs f) b with msg | raw2
    · constructor
      · rintro ⟨out, hout⟩
        exact absurd hout (by simp)
      · rintro ⟨hnd, hdisj⟩
        exfalso
        have hok : ∃ out, addStructs raw (decodeObjs f) b = .ok out := by
          apply (addStructs_isOk b (decodeObjs f) raw).mpr
          rw [hkeys] at hnd hdisj
          refine ⟨(List.nodup_append.mp hnd).1, ?_⟩
          intro k hk
          exact hdisj k (by simp [hk])
        rcases hok with ⟨out, hout⟩
        rw [ha] at hout
        exact absurd hout (by simp)
    · have hmap2 := addStructs_map b (decodeObjs f) raw raw2 ha
      have hfirst := (addStructs_isOk b (decodeObjs f) raw).mp ⟨raw2, ha⟩
      constructor
      · rintro ⟨out, hout⟩
        have hrest := (ih raw2).mp ⟨out, hout⟩
        rcases hrest with ⟨hnd2, hdisj2⟩
        rw [hmap2] at hdisj2
        rw [hkeys]
        rw [List.nodup_append]
        refine ⟨⟨hfirst.1, hnd2, ?_⟩, ?_⟩
        · intro k hk hcon
          exact hdisj2 k hcon (by simp [hk])
        · intro k hk
          rw [List.mem_append] at hk
          rcases hk with hk1 | hk2
          · exact hfirst.2 k hk1
          · intro hcon
            exact hdisj2 k hk2 (by simp [hcon])
      · rintro ⟨hnd, hdisj⟩
        apply (ih raw2).mpr
        rw [hkeys] at hnd hdisj
        rw [List.nodup_append] at hnd
        refine ⟨hnd.2.1, ?_⟩
        intro k hk
        rw [hmap2, List.mem_append]
        rintro (hk1 | hk2)
        · exact hdisj k (by simp [hk]) hk1
        · exact hnd.2.2 hk2 hk

/-- C4 counterexample: two declarations of the same type name `Foo` in
different packages (one in the source input, one in an include input)
are both accepted — model building does not fail, and `Foo` is
registered twice — refuting the claim that any shared name across the
schema is a build error. -/
theorem claim_C4_counterexample :
    registerAll [⟨"a", [.typeDecl [⟨"Foo", .structTy []⟩]]⟩]
        [⟨"b", [.typeDecl [⟨"Foo", .structTy []⟩]]⟩] =
      .ok [⟨"Foo", some [], "a", none, false, false⟩,
           ⟨"Foo", some [], "b", none, false, true⟩] := rfl

/-- C4 (amended): model building fails with a build-time error exactly
when two named type declarations share both their name and their package
across the source and include inputs; on success every (package, name)
pair is registered exactly once, in input order. -/
theorem claim_C4_duplicate_registration (src inc : List GoFile) :
    ((∃ raw, registerAll src inc = .ok raw) ↔
      (fileKeys src ++ fileKeys inc).Nodup) ∧
    (∀ raw, registerAll src inc = .ok raw →
      raw.map objKey = fileKeys src ++ fileKeys inc) := by
  constructor
  · rw [registerAll]
    rcases ha : addAllFiles [] src false with msg | raw1
    · constructor
      · rintro ⟨raw, hraw⟩
        exact absurd hraw (by simp)
      · intro hnd
        exfalso
        have hok : ∃ out, addAllFiles ([] : List AstStructR) src false = .ok out := by
          apply (addAllFiles_isOk false src []).mpr
          refine ⟨(List.nodup_append.mp hnd).1, ?_⟩
          intro k _
          simp
        rcases hok with ⟨out, hout⟩
        rw [ha] at hout
        exact absurd hout (by simp)
    · have hmap1 := addAllFiles_map false src [] raw1 ha
      simp only [List.map_nil, List.nil_append] at hmap1
      have hfirst := (addAllFiles_isOk false src []).mp ⟨raw1, ha⟩
      constructor
      · rintro ⟨raw, hraw⟩
        have hsecond := (addAllFiles_isOk true inc raw1).mp ⟨raw, hraw⟩
        rw [List.nodup_append]
        refine ⟨hfirst.1, hsecond.1, ?_⟩
        intro k hk hcon
        exact hsecond.2 k hcon (by rw [hmap1]; exact hk)
      · intro hnd
        rw [List.nodup_append] at hnd
        apply (addAllFiles_isOk true inc raw1).mpr
        refine ⟨hnd.2.1, ?_⟩
        intro k hk
        rw [hmap1]
        intro hcon
        exact hnd.2.2 hcon hk
  · intro raw hraw
    rw [registerAll] at hraw
    rcases ha : addAllFiles [] src false with msg | raw1
    · rw [ha] at hraw
      exact absurd hraw (by simp)
    · rw [ha] at hraw
      have hmap1 := addAllFiles_map false src [] raw1 ha
      simp only [List.map_nil, List.nil_append] at hmap1
      have hmap2 := addAllFiles_map true inc raw1 raw hraw
      rw [hmap2, hmap1]

theorem claim_C4_witness :
    ((∃ raw, registerAll [⟨"a", [.typeDecl [⟨"Foo", .structTy []⟩]]⟩]
        [⟨"a", [.typeDecl [⟨"Foo", .structTy []⟩]]⟩] = .ok raw) ↔
      (fileKeys [⟨"a", [.typeDecl [⟨"Foo", .structTy []⟩]]⟩] ++
        fileKeys [⟨"a", [.typeDecl [⟨"Foo", .structTy []⟩]]⟩]).Nodup) ∧
    (∀ raw, registerAll [⟨"a", [.typeDecl [⟨"Foo", .structTy []⟩]]⟩]
        [⟨"a", [.typeDecl [⟨"Foo", .structTy []⟩]]⟩] = .ok raw →
      raw.map objKey = fileKeys [⟨"a", [.typeDecl [⟨"Foo", .structTy []⟩]]⟩] ++
        fileKeys [⟨"a", [.typeDecl [⟨"Foo", .structTy []⟩]]⟩]) :=
  claim_C4_duplicate_registration _ _

/-!
Heap lemmas: every address visited by `readV` is allocated; `readV` is
stable under any store change outside its visit set (and in particular
under appending); a copy is made entirely of fresh cells and denotes the
same tree.
-/

theorem store_lt_of_get (st : Store) (a : Nat) (c : Cell)
    (h : st.get? a = some c) : a < st.length := by
  by_contra hge
  rw [List.get?_eq_none.mpr (Nat.le_of_not_lt hge)] at h
  exact absurd h (by simp)

theorem read_bounds (fuel : Nat) :
    (∀ (st : Store) (a : Nat) (v : Value) (L : List Nat),
        readV fuel st a = some (v, L) → ∀ x ∈ L, x < st.length) ∧
    (∀ (st : Store) (l : List Nat) (vs : List Value) (L : List Nat),
        readVList fuel st l = some (vs, L) → ∀ x ∈ L, x < st.length) := by
  induction fuel with
  | zero =>
    constructor
    · intro st a v L h
      rw [readV] at h
      exact absurd h (by simp)
    · intro st l vs L h
      match l with
      | [] =>
        rw [readVList] at h
        have hL : L = [] := by cases h; rfl
        subst hL
        intro x hx
        exact absurd hx (by simp)
      | a :: rest =>
        rw [readVList] at h
        rw [readV] at h
        exact absurd h (by simp)
  | succ f ih =>
    have hP : ∀ (st : Store) (a : Nat) (v : Value) (L : List Nat),
        readV (f + 1) st a = some (v, L) → ∀ x ∈ L, x < st.length := by
      intro st a v L h
      rw [readV] at h
      rcases hg : st.get? a with _ | c
      · simp only [hg] at h
        exact absurd h (by simp)
      simp only [hg] at h
      have hlt := store_lt_of_get st a c hg
      rcases hro : readVList f st c.o with _ | p
      · simp only [hro] at h
        exact absurd h (by simp)
      rcases p with ⟨vs, lo⟩
      simp only [hro] at h
      rcases he : c.e with _ | ea
      · simp only [he] at h
        have hL : L = a :: lo := by cases h; rfl
        subst hL
        intro x hx
        rcases List.mem_cons.mp hx with rfl | hx2
        · exact hlt
        · exact ih.2 st c.o vs lo hro x hx2
      · simp only [he] at h
        rcases hre : readV f st ea with _ | q
        · simp only [hre] at h
          exact absurd h (by simp)
        rcases q with ⟨ve, le⟩
        simp only [hre] at h
        have hL : L = a :: (lo ++ le) := by cases h; rfl
        subst hL
        intro x hx
        rcases List.mem_cons.mp hx with rfl | hx2
        · exact hlt
        · rcases List.mem_append.mp hx2 with hx3 | hx3
          · exact ih.2 st c.o vs lo hro x hx3
          · exact ih.1 st ea ve le hre x hx3
    refine ⟨hP, ?_⟩
    intro st l
    induction l generalizing st with
    | nil =>
      intro vs L h
      rw [readVList] at h
      have hL : L = [] := by cases h; rfl
      subst hL
      intro x hx
      exact absurd hx (by simp)
    | cons a rest ihl =>
      intro vs L h
      rw [readVList] at h
      rcases hra : readV (f + 1) st a with _ | p
      · simp only [hra] at h
        exact absurd h (by simp)
      rcases p with ⟨v1, la⟩
      simp only [hra] at h
      rcases hrr : readVList (f + 1) st rest with _ | q
      · simp only [hrr] at h
        exact absurd h (by simp)
      rcases q with ⟨vrest, lr⟩
      simp only [hrr] at h
      have hL : L = la ++ lr := by cases h; rfl
      subst hL
      intro x hx
      rcases List.mem_append.mp hx with hx1 | hx2
      · exact hP st a v1 la hra x hx1
      · exact ihl st vrest lr hrr x hx2

theorem read_frame (fuel : Nat) :
    (∀ (st st2 : Store) (a : Nat) (v : Value) (L : List Nat),
        readV fuel st a = some (v, L) →
        (∀ x ∈ L, st2.get? x = st.get? x) →
        readV fuel st2 a = some (v, L)) ∧
    (∀ (st st2 : Store) (l : List Nat) (vs : List Value) (L : List Nat),
        readVList fuel st l = some (vs, L) →
        (∀ x ∈ L, st2.get? x = st.get? x) →
        readVList fuel st2 l = some (vs, L)) := by
  induction fuel with
  | zero =>
    constructor
    · intro st st2 a v L h _
      rw [readV] at h
      exact absurd h (by simp)
    · intro st st2 l vs L h hag
      match l with
      | [] =>
        rw [readVList] at h ⊢
        exact h
      | a :: rest =>
        rw [readVList] at h
        rw [readV] at h
        exact absurd h (by simp)
  | succ f ih =>
    have hP : ∀ (st st2 : Store) (a : Nat) (v : Value) (L : List Nat),
        readV (f + 1) st a = some (v, L) →
        (∀ x ∈ L, st2.get? x = st.get? x) →
        readV (f + 1) st2 a = some (v, L) := by
      intro st st2 a v L h hag
      rw [readV] at h
      rcases hg : st.get? a with _ | c
      · simp only [hg] at h
        exact absurd h (by simp)
      simp only [hg] at h
      rcases hro : readVList f st c.o with _ | p
      · simp only [hro] at h
        exact absurd h (by simp)
      rcases p with ⟨vs, lo⟩
      simp only [hro] at h
      rcases he : c.e with _ | ea
      · simp only [he] at h
        have hL : L = a :: lo := by cases h; rfl
        have hv : v = Value.mk c.name c.obj c.s c.t vs none c.c c.m c.ref
            c.noPtr c.fixed := by cases h; rfl
        subst hL
        subst hv
        have hg2 : st2.get? a = some c := by
          rw [hag a (by simp), hg]
        have hro2 := ih.2 st st2 c.o vs lo hro (fun x hx => hag x (by simp [hx]))
        rw [readV]
        simp only [hg2, hro2, he]
      · simp only [he] at h
        rcases hre : readV f st ea with _ | q
        · simp only [hre] at h
          exact absurd h (by simp)
        rcases q with ⟨ve, le⟩
        simp only [hre] at h
        have hL : L = a :: (lo ++ le) := by cases h; rfl
        have hv : v = Value.mk c.name c.obj c.s c.t vs (some ve) c.c c.m c.ref
            c.noPtr c.fixed := by cases h; rfl
        subst hL
        subst hv
        have hg2 : st2.get? a = some c := by
          rw [hag a (by simp), hg]
        have hro2 := ih.2 st st2 c.o vs lo hro
          (fun x hx => hag x (by simp [hx]))
        have hre2 := ih.1 st st2 ea ve le hre
          (fun x hx => hag x (by simp [hx]))
        rw [readV]
        simp only [hg2, hro2, he, hre2]
    refine ⟨hP, ?_⟩
    intro st st2 l
    induction l generalizing st with
    | nil =>
      intro vs L h hag
      rw [readVList] at h ⊢
      exact h
    | cons a rest ihl =>
      intro vs L h hag
      rw [readVList] at h
      rcases hra : readV (f + 1) st a with _ | p
      · simp only [hra] at h
        exact absurd h (by simp)
      rcases p with ⟨v1, la⟩
      simp only [hra] at h
      rcases hrr : readVList (f + 1) st rest with _ | q
      · simp only [hrr] at h
        exact absurd h (by simp)
      rcases q with ⟨vrest, lr⟩
      simp only [hrr] at h
      have hL : L = la ++ lr := by cases h; rfl
      have hv : vs = v1 :: vrest := by cases h; rfl
      subst hL
      subst hv
      have hra2 := hP st st2 a v1 la hra (fun x hx => hag x (by simp [hx]))
      have hrr2 := ihl st vrest lr hrr (fun x hx => hag x (by simp [hx]))
      rw [readVList]
      simp only [hra2, hrr2]

theorem readV_mono (fuel : Nat) (st ext : Store) (a : Nat) (v : Value)
    (L : List Nat) (h : readV fuel st a = some (v, L)) :
    readV fuel (st ++ ext) a = some (v, L) := by
  apply (read_frame fuel).1 st (st ++ ext) a v L h
  intro x hx
  have hlt := (read_bounds fuel).1 st a v L h x hx
  exact List.get?_append hlt

theorem readVList_mono (fuel : Nat) (st ext : Store) (l : List Nat)
    (vs : List Value) (L : List Nat)
    (h : readVList fuel st l = some (vs, L)) :
    readVList fuel (st ++ ext) l = some (vs, L) := by
  apply (read_frame fuel).2 st (st ++ ext) l vs L h
  intro x hx
  have hlt := (read_bounds fuel).2 st l vs L h x hx
  exact List.get?_append hlt

theorem readV_root (fuel : Nat) (st : Store) (a : Nat) (v : Value)
    (L : List Nat) (h : readV fuel st a = some (v, L)) :
    ∃ rest, L = a :: rest := by
  match fuel with
  | 0 =>
    rw [readV] at h
    exact absurd h (by simp)
  | f + 1 =>
    rw [readV] at h
    rcases hg : st.get? a with _ | c
    · simp only [hg] at h
      exact absurd h (by simp)
    simp only [hg] at h
    rcases hro : readVList f st c.o with _ | p
    · simp only [hro] at h
      exact absurd h (by simp)
    rcases p with ⟨vs, lo⟩
    simp only [hro] at h
    rcases he : c.e with _ | ea
    · simp only [he] at h
      exact ⟨lo, by cases h; rfl⟩
    · simp only [he] at h
      rcases hre : readV f st ea with _ | q
      · simp only [hre] at h
        exact absurd h (by simp)
      rcases q with ⟨ve, le⟩
      simp only [hre] at h
      exact ⟨lo ++ le, by cases h; rfl⟩

theorem length_le_of_append (st st1 ext : Store) (h : st1 = st ++ ext) :
    st.length ≤ st1.length := by
  subst h
  rw [List.length_append]
  exact Nat.le_add_right _ _

theorem copy_sim (fuel : Nat) :
    (∀ (st : Store) (a : Nat) (st2 : Store) (a2 : Nat) (v : Value) (L : List Nat),
        copyVal fuel st a = some (st2, a2) →
        readV fuel st a = some (v, L) →
        (∃ ext, st2 = st ++ ext) ∧ st.length ≤ a2 ∧
          ∃ L2, readV fuel st2 a2 = some (v, L2) ∧ ∀ x ∈ L2, st.length ≤ x) ∧
    (∀ (st : Store) (l : List Nat) (st2 : Store) (os : List Nat)
        (vs : List Value) (L : List Nat),
        copyList fuel st l = some (st2, os) →
        readVList fuel st l = some (vs, L) →
        (∃ ext, st2 = st ++ ext) ∧
          ∃ L2, readVList fuel st2 os = some (vs, L2) ∧ ∀ x ∈ L2, st.length ≤ x) := by
  induction fuel with
  | zero =>
    constructor
    · intro st a st2 a2 v L hc _
      rw [copyVal] at hc
      exact absurd hc (by simp)
    · intro st l st2 os vs L hc hr
      match l with
      | [] =>
        rw [copyList] at hc
        rw [readVList] at hr
        have hst2 : st2 = st := by cases hc; rfl
        have hos : os = [] := by cases hc; rfl
        have hvs : vs = [] := by cases hr; rfl
        subst hst2
        subst hos
        subst hvs
        exact ⟨⟨[], by simp⟩, [], by rw [readVList], by simp⟩
      | a :: rest =>
        rw [copyList] at hc
        rw [copyVal] at hc
        exact absurd hc (by simp)
  | succ f ih =>
    have hP : ∀ (st : Store) (a : Nat) (st2 : Store) (a2 : Nat) (v : Value)
        (L : List Nat),
        copyVal (f + 1) st a = some (st2, a2) →
        readV (f + 1) st a = some (v, L) →
        (∃ ext, st2 = st ++ ext) ∧ st.length ≤ a2 ∧
          ∃ L2, readV (f + 1) st2 a2 = some (v, L2) ∧ ∀ x ∈ L2, st.length ≤ x := by
      intro st a st2 a2 v L hc hr
      rw [copyVal] at hc
      rw [readV] at hr
      rcases hg : st.get? a with _ | c
      · simp only [hg] at hc
        exact absurd hc (by simp)
      simp only [hg] at hc hr
      rcases hcl : copyList f st c.o with _ | p1
      · simp only [hcl] at hc
        exact absurd hc (by simp)
      rcases p1 with ⟨st1, os⟩
      simp only [hcl] at hc
      rcases hro : readVList f st c.o with _ | p2
      · simp only [hro] at hr
        exact absurd hr (by simp)
      rcases p2 with ⟨vs, lo⟩
      simp only [hro] at hr
      obtain ⟨⟨ext1, hst1⟩, lo2, hrlo2, hlo2⟩ := ih.2 st c.o st1 os vs lo hcl hro
      have hlen1 : st.length ≤ st1.length := length_le_of_append st st1 ext1 hst1
      rcases he : c.e with _ | ea
      · simp only [he] at hc hr
        have hst2 : st2 = st1 ++ [{ c with o := os, e := none }] := by
          cases hc; rfl
        have ha2 : a2 = st1.length := by cases hc; rfl
        have hv : v = Value.mk c.name c.obj c.s c.t vs none c.c c.m c.ref
            c.noPtr c.fixed := by cases hr; rfl
        subst hst2
        subst ha2
        subst hv
        refine ⟨⟨ext1 ++ [{ c with o := os, e := none }], by rw [hst1]; simp⟩,
          hlen1, st1.length :: lo2, ?_, ?_⟩
        · rw [readV]
          have hgc : (st1 ++ [{ c with o := os, e := none }]).get? st1.length =
              some { c with o := os, e := none } := List.get?_concat_length _ _
          have hro2 : readVList f (st1 ++ [{ c with o := os, e := none }]) os =
              some (vs, lo2) := readVList_mono f st1 _ os vs lo2 hrlo2
          simp only [hgc, hro2]
        · intro x hx
          rcases List.mem_cons.mp hx with rfl | hx2
          · exact hlen1
          · exact hlo2 x hx2
      · simp only [he] at hc hr
        rcases hce : copyVal f st1 ea with _ | p3
        · simp only [hce] at hc
          exact absurd hc (by simp)
        rcases p3 with ⟨st2e, ae⟩
        simp only [hce] at hc
        rcases hre : readV f st ea with _ | p4
        · simp only [hre] at hr
          exact absurd hr (by simp)
        rcases p4 with ⟨ve, le⟩
        simp only [hre] at hr
        have hre1 : readV f st1 ea = some (ve, le) := by
          rw [hst1]
          exact readV_mono f st ext1 ea ve le hre
        obtain ⟨⟨ext2, hst2e⟩, hae, le2, hrle2, hle2⟩ :=
          ih.1 st1 ea st2e ae ve le hce hre1
        have hlen2 : st1.length ≤ st2e.length :=
          length_le_of_append st1 st2e ext2 hst2e
        have hst2 : st2 = st2e ++ [{ c with o := os, e := some ae }] := by
          cases hc; rfl
        have ha2 : a2 = st2e.length := by cases hc; rfl
        have hv : v = Value.mk c.name c.obj c.s c.t vs (some ve) c.c c.m c.ref
            c.noPtr c.fixed := by cases hr; rfl
        subst hst2
        subst ha2
        subst hv
        refine ⟨⟨ext1 ++ ext2 ++ [{ c with o := os, e := some ae }],
            by rw [hst2e, hst1]; simp⟩,
          Nat.le_trans hlen1 hlen2, st2e.length :: (lo2 ++ le2), ?_, ?_⟩
        · rw [readV]
          have hgc : (st2e ++ [{ c with o := os, e := some ae }]).get? st2e.length =
              some { c with o := os, e := some ae } := List.get?_concat_length _ _
          have hro2 : readVList f (st2e ++ [{ c with o := os, e := some ae }]) os =
              some (vs, lo2) := by
            rw [hst2e, List.append_assoc]
            exact readVList_mono f st1 _ os vs lo2 hrlo2
          have hre2 : readV f (st2e ++ [{ c with o := os, e := some ae }]) ae =
              some (ve, le2) := readV_mono f st2e _ ae ve le2 hrle2
          simp only [hgc, hro2, hre2]
        · intro x hx
          rcases List.mem_cons.mp hx with rfl | hx2
          · exact Nat.le_trans hlen1 hlen2
          · rcases List.mem_append.mp hx2 with hx3 | hx3
            · exact hlo2 x hx3
            · exact Nat.le_trans hlen1 (hle2 x hx3)
    refine ⟨hP, ?_⟩
    intro st l
    induction l generalizing st with
    | nil =>
      intro st2 os vs L hc hr
      rw [copyList] at hc
      rw [readVList] at hr
      have hst2 : st2 = st := by cases hc; rfl
      have hos : os = [] := by cases hc; rfl
      have hvs : vs = [] := by cases hr; rfl
      subst hst2
      subst hos
      subst hvs
      exact ⟨⟨[], by simp⟩, [], by rw [readVList], by simp⟩
    | cons a rest ihl =>
      intro st2 os vs L hc hr
      rw [copyList] at hc
      rw [readVList] at hr
      rcases hcv : copyVal (f + 1) st a with _ | p1
      · simp only [hcv] at hc
        exact absurd hc (by simp)
      rcases p1 with ⟨stA, a1⟩
      simp only [hcv] at hc
      rcases hra : readV (f + 1) st a with _ | p2
      · simp only [hra] at hr
        exact absurd hr (by simp)
      rcases p2 with ⟨v1, la⟩
      simp only [hra] at hr
      rcases hcr : copyList (f + 1) stA rest with _ | p3
      · simp only [hcr] at hc
        exact absurd hc (by simp)
      rcases p3 with ⟨stB, os2⟩
      simp only [hcr] at hc
      rcases hrr : readVList (f + 1) st rest with _ | p4
      · simp only [hrr] at hr
        exact absurd hr (by simp)
      rcases p4 with ⟨vrest, lrest⟩
      simp only [hrr] at hr
      obtain ⟨⟨e1, hstA⟩, ha1, l1A, hrl1A, hl1A⟩ :=
        hP st a stA a1 v1 la hcv hra
      have hrrA : readVList (f + 1) stA rest = some (vrest, lrest) := by
        rw [hstA]
        exact readVList_mono (f + 1) st e1 rest vrest lrest hrr
      obtain ⟨⟨e2, hstB⟩, lr2, hrlr2, hlr2⟩ :=
        ihl stA stB os2 vrest lrest hcr hrrA
      cases hc
      cases hr
      have hlenA : st.length ≤ stA.length := length_le_of_append st stA e1 hstA
      refine ⟨⟨e1 ++ e2, by rw [hstB, hstA]; simp⟩, l1A ++ lr2, ?_, ?_⟩
      · rw [readVList]
        have hr1B : readV (f + 1) st2 a1 = some (v1, l1A) := by
          rw [hstB]
          exact readV_mono (f + 1) stA e2 a1 v1 l1A hrl1A
        simp only [hr1B, hrlr2]
      · intro x hx
        rcases List.mem_append.mp hx with hx1 | hx2
        · exact hl1A x hx1
        · exact Nat.le_trans hlenA (hlr2 x hx2)

theorem updCell_get_ne (st : Store) (a : Nat) (f : Cell → Cell) (x : Nat)
    (hne : x ≠ a) : (updCell st a f).get? x = st.get? x := by
  rw [updCell]
  rcases hg : st.get? a with _ | c
  · rfl
  · exact List.get?_set_ne (f c) st (Ne.symm hne)

theorem updCell_get_root (st : Store) (a : Nat) (f : Cell → Cell) (c : Cell)
    (hg : st.get? a = some c) : (updCell st a f).get? a = some (f c) := by
  rw [updCell, hg]
  exact List.get?_set_eq_of_lt (f c) (store_lt_of_get st a c hg)

/-- C2: on a registry cache hit, `encodeItem` returns a deep private copy
of the memoized node: the copy's root and every cell it reaches are fresh
addresses (at or beyond the original store length, hence sharing no cell
with the registry structure, whose addresses are all below it); writing
the per-use annotations `ref` and `noPtr` into the returned copy's root
leaves the registry entry's denoted tree and any sibling use-site copy's
denoted tree unchanged, while the write itself lands in the copy's root
cell. -/
theorem claim_C2_use_site_copy_private
    (build : String → String → Store → Option (Store × Nat))
    (objs : List (String × Nat)) (fuel : Nat) (st : Store)
    (name tags tags2 r : String) (b : Bool) (a : Nat) (v : Value) (L : List Nat)
    (st1 st2 : Store) (a1 a2 : Nat)
    (hhit : lookupObj objs name = some a)
    (hread : readV fuel st a = some (v, L))
    (h1 : encodeItemH build objs fuel st name tags = some (st1, a1))
    (h2 : encodeItemH build objs fuel st1 name tags2 = some (st2, a2)) :
    st.length ≤ a1 ∧ st1.length ≤ a2 ∧
    (∃ L1, readV fuel st2 a1 = some (v, L1) ∧ ∀ x ∈ L1, st.length ≤ x) ∧
    readV fuel (setCellNoPtr (setCellRef st2 a1 r) a1 b) a = some (v, L) ∧
    (∃ L2, readV fuel (setCellNoPtr (setCellRef st2 a1 r) a1 b) a2 = some (v, L2)) ∧
    (∃ c, st2.get? a1 = some c ∧
      (setCellNoPtr (setCellRef st2 a1 r) a1 b).get? a1 =
        some { c with ref := r, noPtr := b }) := by
  rw [encodeItemH, hhit] at h1 h2
  obtain ⟨⟨ext1, hst1⟩, ha1ge, L1, hrL1, hL1ge⟩ :=
    (copy_sim fuel).1 st a st1 a1 v L h1 hread
  have hread1 : readV fuel st1 a = some (v, L) := by
    rw [hst1]
    exact readV_mono fuel st ext1 a v L hread
  obtain ⟨⟨ext2, hst2⟩, ha2ge, L2, hrL2, hL2ge⟩ :=
    (copy_sim fuel).1 st1 a st2 a2 v L h2 hread1
  have hread2 : readV fuel st2 a = some (v, L) := by
    rw [hst2]
    exact readV_mono fuel st1 ext2 a v L hread1
  have hrL1b : readV fuel st2 a1 = some (v, L1) := by
    rw [hst2]
    exact readV_mono fuel st1 ext2 a1 v L1 hrL1
  have ha1lt : a1 < st1.length := by
    obtain ⟨rest1, hL1r⟩ := readV_root fuel st1 a1 v L1 hrL1
    exact (read_bounds fuel).1 st1 a1 v L1 hrL1 a1 (by rw [hL1r]; simp)
  have hag : ∀ x, x ≠ a1 →
      (setCellNoPtr (setCellRef st2 a1 r) a1 b).get? x = st2.get? x := by
    intro x hx
    rw [setCellNoPtr, updCell_get_ne _ _ _ _ hx, setCellRef,
      updCell_get_ne _ _ _ _ hx]
  refine ⟨ha1ge, ha2ge, ⟨L1, hrL1b, hL1ge⟩, ?_, ?_, ?_⟩
  · apply (read_frame fuel).1 st2 _ a v L hread2
    intro x hxL
    apply hag
    have hxlt := (read_bounds fuel).1 st a v L hread x hxL
    exact Nat.ne_of_lt (Nat.lt_of_lt_of_le hxlt ha1ge)
  · refine ⟨L2, ?_⟩
    apply (read_frame fuel).1 st2 _ a2 v L2 hrL2
    intro x hxL
    apply hag
    intro hcon
    have hxge := hL2ge x hxL
    rw [hcon] at hxge
    exact absurd ha1lt (Nat.not_lt_of_le hxge)
  · rcases hgc : st2.get? a1 with _ | c
    · exfalso
      have hle := List.get?_eq_none.mp hgc
      have ha1lt2 : a1 < st2.length :=
        Nat.lt_of_lt_of_le ha1lt (length_le_of_append st1 st2 ext2 hst2)
      exact absurd ha1lt2 (Nat.not_lt_of_le hle)
    · refine ⟨c, rfl, ?_⟩
      have hs1 : (setCellRef st2 a1 r).get? a1 = some { c with ref := r } :=
        updCell_get_root st2 a1 _ c hgc
      have hs2 : (setCellNoPtr (setCellRef st2 a1 r) a1 b).get? a1 =
          some { { c with ref := r } with noPtr := b } :=
        updCell_get_root _ a1 _ _ hs1
      exact hs2

/-- C9: resolving a name already present in the memoized registry ignores
the tags argument entirely: the result is the same for any two tag
strings (and any two behaviours of the first-build path), and two
successive resolutions of the same cached name return structurally equal
values — the denoted tree of both copies is the registry entry's tree —
so per-use bound annotations have no effect on the model after the
type's first build. -/
theorem claim_C9_cached_resolution_ignores_tags
    (build build2 : String → String → Store → Option (Store × Nat))
    (objs : List (String × Nat)) (fuel : Nat) (st : Store)
    (name tags tags2 : String) (a : Nat) (v : Value) (L : List Nat)
    (st1 : Store) (a1 : Nat)
    (hhit : lookupObj objs name = some a)
    (hread : readV fuel st a = some (v, L))
    (h1 : encodeItemH build objs fuel st name tags = some (st1, a1)) :
    encodeItemH build2 objs fuel st name tags2 = some (st1, a1) ∧
    (∃ L1, readV fuel st1 a1 = some (v, L1)) ∧
    (∀ (st2 : Store) (a2 : Nat),
      encodeItemH build2 objs fuel st1 name tags2 = some (st2, a2) →
      ∃ L2, readV fuel st2 a2 = some (v, L2)) := by
  rw [encodeItemH, hhit] at h1
  obtain ⟨⟨ext1, hst1⟩, ha1ge, L1, hrL1, hL1ge⟩ :=
    (copy_sim fuel).1 st a st1 a1 v L h1 hread
  have hread1 : readV fuel st1 a = some (v, L) := by
    rw [hst1]
    exact readV_mono fuel st ext1 a v L hread
  refine ⟨?_, ⟨L1, hrL1⟩, ?_⟩
  · rw [encodeItemH, hhit]
    exact h1
  · intro st2 a2 h2
    rw [encodeItemH, hhit] at h2
    obtain ⟨⟨ext2, hst2⟩, ha2ge, L2, hrL2, hL2ge⟩ :=
      (copy_sim fuel).1 st1 a st2 a2 v L h2 hread1
    exact ⟨L2, hrL2⟩

def demoCell0 : Cell :=
  ⟨"C", "C", 0, Ty.container, [1], none, false, 0, "", false, false⟩

def demoCell1 : Cell :=
  ⟨"", "", 8, Ty.uint, [], none, false, 0, "", false, false⟩

def demoStore : Store := [demoCell0, demoCell1]

def demoHeapVal : Value :=
  .mk "C" "C" 0 Ty.container [mkBasic Ty.uint 8] none false 0 "" false false

def demoBuild : String → String → Store → Option (Store × Nat) :=
  fun _ _ _ => none

def demoSt1 : Store := [demoCell0, demoCell1, demoCell1, { demoCell0 with o := [2] }]

def demoSt2 : Store :=
  [demoCell0, demoCell1, demoCell1, { demoCell0 with o := [2] },
    demoCell1, { demoCell0 with o := [4] }]

theorem claim_C2_witness :
    lookupObj [("T", 0)] "T" = some 0 ∧
    readV 3 demoStore 0 = some (demoHeapVal, [0, 1]) ∧
    encodeItemH demoBuild [("T", 0)] 3 demoStore "T" "t1" = some (demoSt1, 3) ∧
    encodeItemH demoBuild [("T", 0)] 3 demoSt1 "T" "t2" = some (demoSt2, 5) ∧
    (List.length demoStore ≤ 3 ∧ List.length demoSt1 ≤ 5 ∧
      (∃ L1, readV 3 demoSt2 3 = some (demoHeapVal, L1) ∧
        ∀ x ∈ L1, List.length demoStore ≤ x) ∧
      readV 3 (setCellNoPtr (setCellRef demoSt2 3 "pkg") 3 true) 0 =
        some (demoHeapVal, [0, 1]) ∧
      (∃ L2, readV 3 (setCellNoPtr (setCellRef demoSt2 3 "pkg") 3 true) 5 =
        some (demoHeapVal, L2)) ∧
      (∃ c, demoSt2.get? 3 = some c ∧
        (setCellNoPtr (setCellRef demoSt2 3 "pkg") 3 true).get? 3 =
          some { c with ref := "pkg", noPtr := true })) := by
  have e1 : readV 3 demoStore 0 = some (demoHeapVal, [0, 1]) := by
    simp [readV, readVList, demoStore, demoCell0, demoCell1, demoHeapVal,
      mkBasic, List.get?]
  have e2 : encodeItemH demoBuild [("T", 0)] 3 demoStore "T" "t1" =
      some (demoSt1, 3) := by
    simp [encodeItemH, lookupObj, copyVal, copyList, demoStore, demoSt1,
      demoCell0, demoCell1, List.get?, List.find?]
  have e3 : encodeItemH demoBuild [("T", 0)] 3 demoSt1 "T" "t2" =
      some (demoSt2, 5) := by
    simp [encodeItemH, lookupObj, copyVal, copyList, demoSt1, demoSt2,
      demoCell0, demoCell1, List.get?, List.find?]
  exact ⟨rfl, e1, e2, e3,
    claim_C2_use_site_copy_private demoBuild [("T", 0)] 3 demoStore "T" "t1" "t2"
      "pkg" true 0 demoHeapVal [0, 1] demoSt1 demoSt2 3 5 rfl e1 e2 e3⟩

theorem claim_C9_witness :
    lookupObj [("T", 0)] "T" = some 0 ∧
    readV 3 demoStore 0 = some (demoHeapVal, [0, 1]) ∧
    encodeItemH demoBuild [("T", 0)] 3 demoStore "T" "size-32" = some (demoSt1, 3) ∧
    (encodeItemH (fun _ _ _ => some ([], 0)) [("T", 0)] 3 demoStore "T" "size-64" =
        some (demoSt1, 3) ∧
      (∃ L1, readV 3 demoSt1 3 = some (demoHeapVal, L1)) ∧
      (∀ (st2 : Store) (a2 : Nat),
        encodeItemH (fun _ _ _ => some ([], 0)) [("T", 0)] 3 demoSt1 "T" "size-64" =
          some (st2, a2) →
        ∃ L2, readV 3 st2 a2 = some (demoHeapVal, L2))) := by
  have e1 : readV 3 demoStore 0 = some (demoHeapVal, [0, 1]) := by
    simp [readV, readVList, demoStore, demoCell0, demoCell1, demoHeapVal,
      mkBasic, List.get?]
  have e2 : encodeItemH demoBuild [("T", 0)] 3 demoStore "T" "size-32" =
      some (demoSt1, 3) := by
    simp [encodeItemH, lookupObj, copyVal, copyList, demoStore, demoSt1,
      demoCell0, demoCell1, List.get?, List.find?]
  exact ⟨rfl, e1, e2,
    claim_C9_cached_resolution_ignores_tags demoBuild (fun _ _ _ => some ([], 0))
      [("T", 0)] 3 demoStore "T" "size-32" "size-64" 0 demoHeapVal [0, 1]
      demoSt1 3 rfl e1 e2⟩

end Fastssz
